import Mathlib

/-!
Verification of the multi-object tracking and line-crossing counter of the
people-count application.  The core under study is the pure per-frame logic of
`detectPeopleWithCrossing` in `src/lib/supabase.ts`, together with its helpers
`calculateDistance`, `calculateIoU`, `findClosestPerson` and
`cleanupTrackedPeople`.

Modelling decisions (everything else is a direct transcription of the source):

* Numbers are `ℚ`.  JavaScript's `Math.sqrt` is modelled by an explicit
  square-root parameter `sq : ℚ → ℚ` threaded through the definitions;
  theorems about concrete scenarios assume only facts about `sq` that are true
  of the real square root (its exact values on perfect squares, and bounds on
  the few non-square arguments that occur).  `ratSqrt` below is a concrete
  computable function satisfying those assumptions, used by closed witness
  theorems.
* The global `Map<string, TrackedPerson>` is modelled as a `List TrackedPerson`
  in insertion order, which is exactly the iteration order of a JavaScript
  `Map`; in-place mutation of a found entry becomes replacement of the entry
  with the matching id.
* `Date.now()` is modelled by a per-frame parameter `now`; the source may read
  the clock several times within one frame but nothing in the logic depends on
  sub-frame clock ticks.
* The id `person_${Date.now()}_${random}` is modelled by a counter `nextId`;
  the only property the source relies on is freshness of new ids.
* The detection step (`detectPeople`, the COCO-SSD model, already filtered to
  the person class with at least the minimum confidence) is the external
  collaborator; its output list is the input of `processFrame`.
-/

/-- Axis-aligned box `[x, y, width, height]` as used by the source's `bbox`
tuples, `y` growing downward. -/
structure Box where
  x : ℚ
  y : ℚ
  w : ℚ
  h : ℚ
  deriving DecidableEq

/-- One detection reported for the current frame: a box and a confidence
score, the source's `{bbox, class, score}` with the class already filtered to
person. -/
structure Det where
  bbox : Box
  score : ℚ
  deriving DecidableEq

/-- Crossing direction, the source's `'in' | 'out'`. -/
inductive Direction where
  | din : Direction
  | dout : Direction
  deriving DecidableEq

/-- The source's `TrackedPerson` record (the string id is modelled as `ℕ`). -/
structure TrackedPerson where
  id : ℕ
  bbox : Box
  centerX : ℚ
  centerY : ℚ
  previousY : ℚ
  lastSeen : ℚ
  crossed : Bool
  direction : Option Direction
  framesSinceCrossing : ℕ
  deriving DecidableEq

/-- The tracker's persistent state: the `trackedPeople` registry plus the
fresh-id counter that models the id generator. -/
structure TrackerState where
  people : List TrackedPerson
  nextId : ℕ
  deriving DecidableEq

/-- Source constant `CROSSING_LINE_POSITION = 0.5`. -/
def CROSSING_LINE_POSITION : ℚ := 1/2

/-- Source constant `TRACKING_THRESHOLD = 400` (pixels). -/
def TRACKING_THRESHOLD : ℚ := 400

/-- Source constant `TRACKING_TIMEOUT = 3000` (milliseconds). -/
def TRACKING_TIMEOUT : ℚ := 3000

/-- Source constant `CROSSING_COOLDOWN = 15` (frames). -/
def CROSSING_COOLDOWN : ℕ := 15

/-- Source constant `MIN_DISTANCE_FOR_CROSSING = 5` (pixels). -/
def MIN_DISTANCE_FOR_CROSSING : ℚ := 5

/-- Source `calculateDistance`: Euclidean distance
`Math.sqrt((x2-x1)^2 + (y2-y1)^2)`, with the square root passed in as `sq`. -/
def calculateDistance (sq : ℚ → ℚ) (x1 y1 x2 y2 : ℚ) : ℚ :=
  sq ((x2 - x1) ^ 2 + (y2 - y1) ^ 2)

/-- Source `calculateIoU`: intersection over union of two boxes.  Division in
`ℚ` is total with `q / 0 = 0`; the separate predicate `iouDividesByZero`
records when the source's division has a zero denominator (a NaN in
JavaScript). -/
def calculateIoU (b1 b2 : Box) : ℚ :=
  let xLeft := max b1.x b2.x
  let yTop := max b1.y b2.y
  let xRight := min (b1.x + b1.w) (b2.x + b2.w)
  let yBottom := min (b1.y + b1.h) (b2.y + b2.h)
  if xRight < xLeft ∨ yBottom < yTop then 0
  else
    let intersectionArea := (xRight - xLeft) * (yBottom - yTop)
    let unionArea := b1.w * b1.h + b2.w * b2.h - intersectionArea
    intersectionArea / unionArea

/-- Whether the final division of `calculateIoU` is reached with a zero
denominator (which in the JavaScript source produces NaN). -/
def iouDividesByZero (b1 b2 : Box) : Bool :=
  let xLeft := max b1.x b2.x
  let yTop := max b1.y b2.y
  let xRight := min (b1.x + b1.w) (b2.x + b2.w)
  let yBottom := min (b1.y + b1.h) (b2.y + b2.h)
  if xRight < xLeft ∨ yBottom < yTop then false
  else b1.w * b1.h + b2.w * b2.h - (xRight - xLeft) * (yBottom - yTop) = 0

/-- The source's size-similarity factor inside `findClosestPerson`:
`Math.min(w1*h1, w2*h2) / Math.max(w1*h1, w2*h2)`. -/
def sizeSimilarity (b1 b2 : Box) : ℚ :=
  min (b1.w * b1.h) (b2.w * b2.h) / max (b1.w * b1.h) (b2.w * b2.h)

/-- The candidate score computed inside the `forEach` of `findClosestPerson`:
`iou * 0.5 + distanceScore * 0.3 + sizeRatio * 0.2` with
`distanceScore = Math.max(0, 1 - distance / TRACKING_THRESHOLD)`. -/
def candidateScore (sq : ℚ → ℚ) (bbox : Box) (cx cy : ℚ) (p : TrackedPerson) : ℚ :=
  let distance := calculateDistance sq cx cy p.centerX p.centerY
  let iou := calculateIoU bbox p.bbox
  let distanceScore := max 0 (1 - distance / TRACKING_THRESHOLD)
  iou * (1/2) + distanceScore * (3/10) + sizeSimilarity bbox p.bbox * (1/5)

/-- The body of the `forEach` of `findClosestPerson`: skip a person farther
than `TRACKING_THRESHOLD`, otherwise keep it when its score beats the best so
far. -/
def findStep (sq : ℚ → ℚ) (bbox : Box) (cx cy : ℚ)
    (acc : Option TrackedPerson × ℚ) (p : TrackedPerson) : Option TrackedPerson × ℚ :=
  if calculateDistance sq cx cy p.centerX p.centerY > TRACKING_THRESHOLD then acc
  else if candidateScore sq bbox cx cy p > acc.2 then (some p, candidateScore sq bbox cx cy p)
  else acc

/-- Source `findClosestPerson`: scan the registry keeping the best candidate,
starting from the minimum match threshold `maxScore = 0.3`. -/
def findClosestPerson (sq : ℚ → ℚ) (people : List TrackedPerson) (bbox : Box)
    (cx cy : ℚ) : Option TrackedPerson :=
  (people.foldl (findStep sq bbox cx cy) (none, 3/10)).1

/-- Source `cleanupTrackedPeople`: drop every person with
`now - lastSeen > TRACKING_TIMEOUT`. -/
def cleanupTrackedPeople (now : ℚ) (people : List TrackedPerson) : List TrackedPerson :=
  people.filter (fun p => ¬ now - p.lastSeen > TRACKING_TIMEOUT)

/-- One person's share of the cooldown pass of `detectPeopleWithCrossing`:
if `crossed`, increment `framesSinceCrossing` and reset the crossing state once
it reaches `CROSSING_COOLDOWN`. -/
def cooldownStep (p : TrackedPerson) : TrackedPerson :=
  if p.crossed then
    let f := p.framesSinceCrossing + 1
    if CROSSING_COOLDOWN ≤ f then
      { p with crossed := false, framesSinceCrossing := 0, direction := none }
    else { p with framesSinceCrossing := f }
  else p

/-- The cooldown pass over the whole registry. -/
def cooldownPass (people : List TrackedPerson) : List TrackedPerson :=
  people.map cooldownStep

/-- Detection center x, the source's `x + width / 2`. -/
def detCenterX (d : Det) : ℚ := d.bbox.x + d.bbox.w / 2

/-- Detection center y, the source's `y + height / 2`. -/
def detCenterY (d : Det) : ℚ := d.bbox.y + d.bbox.h / 2

/-- The update of a matched person: position fields are refreshed (recording
the old center as `previousY`), then the crossing check runs when the person is
not in cooldown.  Returns the updated person and the increments to
`countIn` and `countOut`. -/
def updateMatched (lineY now : ℚ) (p : TrackedPerson) (bbox : Box) (cx cy : ℚ) :
    TrackedPerson × ℕ × ℕ :=
  let previousY := p.centerY
  let previousCenterX := p.centerX
  let q := { p with bbox := bbox, centerX := cx, previousY := previousY,
                    centerY := cy, lastSeen := now }
  if q.crossed then (q, 0, 0)
  else
    let verticalMovement := |cy - previousY|
    let horizontalMovement := |cx - previousCenterX|
    if verticalMovement > MIN_DISTANCE_FOR_CROSSING ∧
        verticalMovement > horizontalMovement * (1/10) then
      if previousY < lineY ∧ cy > lineY then
        ({ q with direction := some Direction.din, crossed := true,
                  framesSinceCrossing := 0 }, 1, 0)
      else if previousY > lineY ∧ cy < lineY then
        ({ q with direction := some Direction.dout, crossed := true,
                  framesSinceCrossing := 0 }, 0, 1)
      else (q, 0, 0)
    else (q, 0, 0)

/-- The mutable state of the detection loop of `detectPeopleWithCrossing`:
the registry, the `matchedPeople` set (as a list of ids), the two counters and
the fresh-id counter. -/
structure AssocState where
  people : List TrackedPerson
  matched : List ℕ
  countIn : ℕ
  countOut : ℕ
  nextId : ℕ
  deriving DecidableEq

/-- The body of `sortedDetections.forEach` in the source: find the closest
person; if one is found and unclaimed, update it (with the crossing check);
if one is found but already claimed, do nothing; if none is found, create a
new person with a fresh id and mark it matched. -/
def assocStep (sq : ℚ → ℚ) (lineY now : ℚ) (s : AssocState) (det : Det) : AssocState :=
  let cx := detCenterX det
  let cy := detCenterY det
  match findClosestPerson sq s.people det.bbox cx cy with
  | some p =>
      if p.id ∈ s.matched then s
      else
        let r := updateMatched lineY now p det.bbox cx cy
        { s with
          people := s.people.map (fun q => if q.id = p.id then r.1 else q),
          matched := p.id :: s.matched,
          countIn := s.countIn + r.2.1,
          countOut := s.countOut + r.2.2 }
  | none =>
      { s with
        people := s.people ++
          [{ id := s.nextId, bbox := det.bbox, centerX := cx, centerY := cy,
             previousY := cy, lastSeen := now, crossed := false,
             direction := none, framesSinceCrossing := 0 }],
        matched := s.nextId :: s.matched,
        nextId := s.nextId + 1 }

/-- Stable insertion into a list sorted by descending confidence. -/
def insertByScore (d : Det) : List Det → List Det
  | [] => [d]
  | e :: es => if e.score < d.score then d :: e :: es else e :: insertByScore d es

/-- The source's `[...result.detections].sort((a, b) => b.score - a.score)`:
a stable sort by descending confidence score. -/
def sortDetections : List Det → List Det
  | [] => []
  | d :: ds => insertByScore d (sortDetections ds)

/-- The association loop over the sorted detections. -/
def associate (sq : ℚ → ℚ) (lineY now : ℚ) (people : List TrackedPerson)
    (nextId : ℕ) (dets : List Det) : AssocState :=
  (sortDetections dets).foldl (assocStep sq lineY now)
    { people := people, matched := [], countIn := 0, countOut := 0, nextId := nextId }

/-- The pure per-frame core of `detectPeopleWithCrossing`: cleanup, cooldown
pass, association over the confidence-sorted detections, then removal of
unmatched people whose last detection is older than the 500 ms grace period.
Returns the new state together with this frame's `countIn` and `countOut`. -/
def processFrame (sq : ℚ → ℚ) (st : TrackerState) (dets : List Det)
    (frameHeight now : ℚ) : TrackerState × ℕ × ℕ :=
  let lineY := frameHeight * CROSSING_LINE_POSITION
  let people1 := cooldownPass (cleanupTrackedPeople now st.people)
  let s := associate sq lineY now people1 st.nextId dets
  let people2 := s.people.filter (fun p => p.id ∈ s.matched ∨ ¬ now - p.lastSeen > 500)
  (⟨people2, s.nextId⟩, s.countIn, s.countOut)

/-- The caller's `reset`: the registry is cleared. -/
def resetTracker : TrackerState := ⟨[], 0⟩

/-- Run a sequence of frames `(detections, now)` at a fixed frame height,
accumulating the per-frame counts as the polling caller does. -/
def runFrames (sq : ℚ → ℚ) (st : TrackerState) (frameHeight : ℚ)
    (frames : List (List Det × ℚ)) : TrackerState × ℕ × ℕ :=
  frames.foldl
    (fun acc fr =>
      let r := processFrame sq acc.1 fr.1 frameHeight fr.2
      (r.1, acc.2.1 + r.2.1, acc.2.2 + r.2.2))
    (st, 0, 0)

/-- The ids present in a registry. -/
def idsOf (people : List TrackedPerson) : List ℕ := people.map (fun p => p.id)

/-- Well-formedness of a tracker state: ids are below the fresh-id counter and
are pairwise distinct. -/
def WF (st : TrackerState) : Prop :=
  (∀ p ∈ st.people, p.id < st.nextId) ∧ (idsOf st.people).Nodup

/-- Integer square root by Newton iteration with structural fuel (so that the
kernel can evaluate it); used only to build the concrete model `ratSqrt` of
`Math.sqrt` for closed theorems. -/
def sqrtIter : ℕ → ℕ → ℕ → ℕ
  | 0, _, g => g
  | fuel + 1, n, g =>
      let g2 := (g + n / g) / 2
      if g2 < g then sqrtIter fuel n g2 else g

/-- Integer square root (exact on perfect squares). -/
def natSqrt (n : ℕ) : ℕ := if n ≤ 1 then n else sqrtIter n n (n / 2 + 1)

/-- A concrete computable stand-in for `Math.sqrt`, exact on the perfect
squares of naturals; every concrete scenario in this development only takes
square roots of such numbers, or needs bounds that this function satisfies. -/
def ratSqrt (q : ℚ) : ℚ := (natSqrt q.num.toNat : ℚ) / (natSqrt q.den : ℚ)

/-- Evaluation helper for `ratSqrt` at integer-valued rationals. -/
theorem ratSqrt_eval (q : ℚ) (n : ℕ) (h1 : natSqrt q.num.toNat = n) (h2 : q.den = 1) :
    ratSqrt q = n := by
  unfold ratSqrt
  rw [h1, h2]
  norm_num [show natSqrt 1 = 1 from rfl]

/-! ### General lemmas about the pieces of the frame step -/

theorem updateMatched_at_most_one (lineY now : ℚ) (p : TrackedPerson) (b : Box) (cx cy : ℚ) :
    (updateMatched lineY now p b cx cy).2.1 + (updateMatched lineY now p b cx cy).2.2 ≤ 1 := by
  unfold updateMatched
  dsimp only
  split_ifs <;> simp

theorem updateMatched_small_move (lineY now : ℚ) (p : TrackedPerson) (b : Box) (cx cy : ℚ)
    (h : |cy - p.centerY| ≤ MIN_DISTANCE_FOR_CROSSING) :
    (updateMatched lineY now p b cx cy).2 = (0, 0) := by
  unfold updateMatched
  dsimp only
  split_ifs with h1 h2 h3 h4 <;> try rfl
  · exact absurd h2.1 (by push_neg; exact h)
  · exact absurd h2.1 (by push_neg; exact h)

theorem updateMatched_not_vertical (lineY now : ℚ) (p : TrackedPerson) (b : Box) (cx cy : ℚ)
    (h : |cy - p.centerY| ≤ |cx - p.centerX| * (1/10)) :
    (updateMatched lineY now p b cx cy).2 = (0, 0) := by
  unfold updateMatched
  dsimp only
  split_ifs with h1 h2 h3 h4 <;> try rfl
  · exact absurd h2.2 (by push_neg; exact h)
  · exact absurd h2.2 (by push_neg; exact h)

theorem updateMatched_crossed (lineY now : ℚ) (p : TrackedPerson) (b : Box) (cx cy : ℚ)
    (h : p.crossed = true) :
    (updateMatched lineY now p b cx cy).2 = (0, 0) ∧
    (updateMatched lineY now p b cx cy).1.crossed = true := by
  unfold updateMatched
  dsimp only
  split_ifs with h1 <;> simp_all

theorem updateMatched_same_side (lineY now : ℚ) (p : TrackedPerson) (b : Box) (cx cy : ℚ)
    (h1 : p.centerY > lineY) (h2 : cy > lineY) :
    (updateMatched lineY now p b cx cy).2 = (0, 0) ∧
    (updateMatched lineY now p b cx cy).1.centerY = cy := by
  unfold updateMatched
  dsimp only
  split_ifs with g1 g2 g3 g4 <;> try exact ⟨rfl, rfl⟩
  · exact absurd g3.1 (by push_neg; linarith)
  · exact absurd g4.2 (by push_neg; linarith)

theorem foldl_findStep_mem (sq : ℚ → ℚ) (b : Box) (cx cy : ℚ) :
    ∀ (l : List TrackedPerson) (acc : Option TrackedPerson × ℚ) (p : TrackedPerson),
      (l.foldl (findStep sq b cx cy) acc).1 = some p → p ∈ l ∨ acc.1 = some p := by
  intro l
  induction l with
  | nil => intro acc p h; right; exact h
  | cons a t ih =>
      intro acc p h
      rcases ih (findStep sq b cx cy acc a) p h with hm | he
      · left; exact List.mem_cons_of_mem _ hm
      · unfold findStep at he
        split_ifs at he
        · right; exact he
        · left
          have : a = p := by simpa using congrArg (fun o => o = some p) he |>.mpr rfl
          rw [this]; exact List.mem_cons_self _ _
        · right; exact he

theorem findClosestPerson_mem (sq : ℚ → ℚ) (people : List TrackedPerson) (b : Box)
    (cx cy : ℚ) (p : TrackedPerson) (h : findClosestPerson sq people b cx cy = some p) :
    p ∈ people := by
  rcases foldl_findStep_mem sq b cx cy people (none, 3/10) p h with hm | he
  · exact hm
  · cases he

theorem mem_insertByScore (d e : Det) (l : List Det) :
    e ∈ insertByScore d l ↔ e = d ∨ e ∈ l := by
  induction l with
  | nil => simp [insertByScore]
  | cons a t ih =>
      unfold insertByScore
      split_ifs <;> simp [ih] <;> tauto

theorem mem_sortDetections (e : Det) (l : List Det) :
    e ∈ sortDetections l ↔ e ∈ l := by
  induction l with
  | nil => simp [sortDetections]
  | cons a t ih => simp [sortDetections, mem_insertByScore, ih]

theorem insertByScore_perm (d : Det) (l : List Det) :
    (insertByScore d l).Perm (d :: l) := by
  induction l with
  | nil => simp [insertByScore]
  | cons a t ih =>
      unfold insertByScore
      split_ifs
      · exact List.Perm.refl _
      · exact (ih.cons a).trans (List.Perm.swap d a t)

theorem sortDetections_perm (l : List Det) : (sortDetections l).Perm l := by
  induction l with
  | nil => exact List.Perm.refl _
  | cons a t ih => exact (insertByScore_perm a (sortDetections t)).trans (ih.cons a)

theorem pairwise_insertByScore (d : Det) (l : List Det)
    (h : l.Pairwise (fun a b => b.score ≤ a.score)) :
    (insertByScore d l).Pairwise (fun a b => b.score ≤ a.score) := by
  induction l with
  | nil => simp [insertByScore]
  | cons a t ih =>
      rw [List.pairwise_cons] at h
      unfold insertByScore
      split_ifs with hlt
      · refine List.pairwise_cons.2 ⟨?_, List.pairwise_cons.2 ⟨h.1, h.2⟩⟩
        intro x hx
        rcases List.mem_cons.1 hx with rfl | hx'
        · exact le_of_lt hlt
        · exact le_trans (h.1 x hx') (le_of_lt hlt)
      · refine List.pairwise_cons.2 ⟨?_, ih h.2⟩
        intro x hx
        rcases (mem_insertByScore d x t).1 hx with rfl | hx'
        · exact le_of_not_lt hlt
        · exact h.1 x hx'

theorem sortDetections_sorted (l : List Det) :
    (sortDetections l).Pairwise (fun a b => b.score ≤ a.score) := by
  induction l with
  | nil => simp [sortDetections]
  | cons a t ih => exact pairwise_insertByScore a (sortDetections t) ih

theorem cooldownStep_centerY (p : TrackedPerson) : (cooldownStep p).centerY = p.centerY := by
  unfold cooldownStep
  dsimp only
  split_ifs <;> rfl

theorem cooldownStep_id (p : TrackedPerson) : (cooldownStep p).id = p.id := by
  unfold cooldownStep
  dsimp only
  split_ifs <;> rfl

theorem cooldownStep_lastSeen (p : TrackedPerson) : (cooldownStep p).lastSeen = p.lastSeen := by
  unfold cooldownStep
  dsimp only
  split_ifs <;> rfl

theorem updateMatched_id (lineY now : ℚ) (p : TrackedPerson) (b : Box) (cx cy : ℚ) :
    (updateMatched lineY now p b cx cy).1.id = p.id := by
  unfold updateMatched
  dsimp only
  split_ifs <;> rfl

theorem updateMatched_lastSeen (lineY now : ℚ) (p : TrackedPerson) (b : Box) (cx cy : ℚ) :
    (updateMatched lineY now p b cx cy).1.lastSeen = now := by
  unfold updateMatched
  dsimp only
  split_ifs <;> rfl

/-! ### Frames whose detections all lie below the line produce no events -/

theorem assocStep_far (sq : ℚ → ℚ) (lineY now : ℚ) (s : AssocState) (det : Det)
    (hp : ∀ p ∈ s.people, p.centerY > lineY) (hd : detCenterY det > lineY) :
    (∀ p ∈ (assocStep sq lineY now s det).people, p.centerY > lineY) ∧
    (assocStep sq lineY now s det).countIn = s.countIn ∧
    (assocStep sq lineY now s det).countOut = s.countOut := by
  unfold assocStep
  dsimp only
  cases hf : findClosestPerson sq s.people det.bbox (detCenterX det) (detCenterY det) with
  | none =>
      refine ⟨?_, rfl, rfl⟩
      intro p hmem
      rcases List.mem_append.1 hmem with h1 | h1
      · exact hp p h1
      · rcases List.mem_singleton.1 h1 with rfl
        exact hd
  | some q =>
      have hqmem := findClosestPerson_mem sq s.people det.bbox _ _ q hf
      have hq := hp q hqmem
      have hs := updateMatched_same_side lineY now q det.bbox (detCenterX det) (detCenterY det) hq hd
      dsimp only
      split_ifs with hm
      · exact ⟨hp, rfl, rfl⟩
      · refine ⟨?_, ?_, ?_⟩
        · intro p hmem
          rcases List.mem_map.1 hmem with ⟨r0, hr0, hr0e⟩
          by_cases hid : r0.id = q.id
          · rw [if_pos hid] at hr0e
            rw [← hr0e, hs.2]
            exact hd
          · rw [if_neg hid] at hr0e
            rw [← hr0e]
            exact hp r0 hr0
        · have : (updateMatched lineY now q det.bbox (detCenterX det) (detCenterY det)).2.1 = 0 := by
            rw [hs.1]
          simp [this]
        · have : (updateMatched lineY now q det.bbox (detCenterX det) (detCenterY det)).2.2 = 0 := by
            rw [hs.1]
          simp [this]

theorem foldl_assocStep_far (sq : ℚ → ℚ) (lineY now : ℚ) :
    ∀ (dets : List Det) (s : AssocState),
      (∀ d ∈ dets, detCenterY d > lineY) → (∀ p ∈ s.people, p.centerY > lineY) →
      (∀ p ∈ (dets.foldl (assocStep sq lineY now) s).people, p.centerY > lineY) ∧
      (dets.foldl (assocStep sq lineY now) s).countIn = s.countIn ∧
      (dets.foldl (assocStep sq lineY now) s).countOut = s.countOut := by
  intro dets
  induction dets with
  | nil => intro s _ hp; exact ⟨hp, rfl, rfl⟩
  | cons d ds ih =>
      intro s hd hp
      have hstep := assocStep_far sq lineY now s d hp (hd d (List.mem_cons_self _ _))
      have hrest := ih (assocStep sq lineY now s d) (fun e he => hd e (List.mem_cons_of_mem _ he)) hstep.1
      exact ⟨hrest.1, hrest.2.1.trans hstep.2.1, hrest.2.2.trans hstep.2.2⟩

theorem processFrame_far (sq : ℚ → ℚ) (st : TrackerState) (dets : List Det)
    (fh now : ℚ)
    (hp : ∀ p ∈ st.people, p.centerY > fh * CROSSING_LINE_POSITION)
    (hd : ∀ d ∈ dets, detCenterY d > fh * CROSSING_LINE_POSITION) :
    (processFrame sq st dets fh now).2 = (0, 0) ∧
    (∀ p ∈ (processFrame sq st dets fh now).1.people,
      p.centerY > fh * CROSSING_LINE_POSITION) := by
  unfold processFrame
  dsimp only
  have hp1 : ∀ p ∈ cooldownPass (cleanupTrackedPeople now st.people),
      p.centerY > fh * CROSSING_LINE_POSITION := by
    intro p hmem
    rcases List.mem_map.1 hmem with ⟨r0, hr0, hr0e⟩
    have : r0 ∈ st.people := List.mem_of_mem_filter hr0
    rw [← hr0e, cooldownStep_centerY]
    exact hp r0 this
  have hds : ∀ d ∈ sortDetections dets, detCenterY d > fh * CROSSING_LINE_POSITION := by
    intro d hdm
    exact hd d ((mem_sortDetections d dets).1 hdm)
  have hfold := foldl_assocStep_far sq (fh * CROSSING_LINE_POSITION) now (sortDetections dets)
    { people := cooldownPass (cleanupTrackedPeople now st.people), matched := [],
      countIn := 0, countOut := 0, nextId := st.nextId } hds hp1
  unfold associate
  refine ⟨?_, ?_⟩
  · rw [hfold.2.1, hfold.2.2]
  · intro p hmem
    exact hfold.1 p (List.mem_of_mem_filter hmem)

theorem runFrames_far_aux (sq : ℚ → ℚ) (fh : ℚ) :
    ∀ (frames : List (List Det × ℚ)) (st : TrackerState) (a b : ℕ),
      (∀ p ∈ st.people, p.centerY > fh * CROSSING_LINE_POSITION) →
      (∀ fr ∈ frames, ∀ d ∈ fr.1, detCenterY d > fh * CROSSING_LINE_POSITION) →
      (frames.foldl
        (fun acc fr =>
          let r := processFrame sq acc.1 fr.1 fh fr.2
          (r.1, acc.2.1 + r.2.1, acc.2.2 + r.2.2))
        (st, a, b)).2 = (a, b) := by
  intro frames
  induction frames with
  | nil => intro st a b _ _; rfl
  | cons fr frs ih =>
      intro st a b hp hf
      have hpf := processFrame_far sq st fr.1 fh fr.2 hp
        (hf fr (List.mem_cons_self _ _) )
      have h1 : (processFrame sq st fr.1 fh fr.2).2.1 = 0 := by rw [hpf.1]
      have h2 : (processFrame sq st fr.1 fh fr.2).2.2 = 0 := by rw [hpf.1]
      simp only [List.foldl_cons, h1, h2, Nat.add_zero]
      exact ih (processFrame sq st fr.1 fh fr.2).1 a b hpf.2
        (fun g hg => hf g (List.mem_cons_of_mem _ hg))

/-! ### Concrete scenario data -/

/-- Track centered at `(100, 40)` (above the line at `y = 100`), freshly seen,
not in cooldown. -/
def pDown : TrackedPerson :=
  { id := 0, bbox := ⟨80, 20, 40, 40⟩, centerX := 100, centerY := 40, previousY := 40,
    lastSeen := 900, crossed := false, direction := none, framesSinceCrossing := 0 }

/-- Detection moving that track's center to `(100, 120)`. -/
def dDown : Det := { bbox := ⟨80, 100, 40, 40⟩, score := 9/10 }

/-- `pDown` after being matched by `dDown`: one entering event was counted. -/
def pDownAfter : TrackedPerson :=
  { id := 0, bbox := ⟨80, 100, 40, 40⟩, centerX := 100, centerY := 120, previousY := 40,
    lastSeen := 1000, crossed := true, direction := some Direction.din,
    framesSinceCrossing := 0 }

/-- Track centered at `(100, 120)` (below the line at `y = 100`). -/
def pUp : TrackedPerson :=
  { id := 0, bbox := ⟨80, 100, 40, 40⟩, centerX := 100, centerY := 120, previousY := 120,
    lastSeen := 900, crossed := false, direction := none, framesSinceCrossing := 0 }

/-- Detection moving that track's center to `(100, 40)`. -/
def dUp : Det := { bbox := ⟨80, 20, 40, 40⟩, score := 9/10 }

/-- `pUp` after being matched by `dUp`: one exiting event was counted. -/
def pUpAfter : TrackedPerson :=
  { id := 0, bbox := ⟨80, 20, 40, 40⟩, centerX := 100, centerY := 40, previousY := 120,
    lastSeen := 1000, crossed := true, direction := some Direction.dout,
    framesSinceCrossing := 0 }

/-! ### Claim C6 -/

/-- C6: a matched track whose vertical displacement between consecutive frames
does not exceed `MIN_DISTANCE_FOR_CROSSING` emits no event this frame, even if
the two centers lie on opposite sides of the line, and likewise no event is
emitted when the movement is not primarily vertical
(`verticalMovement <= horizontalMovement * 0.1`). -/
theorem c6_no_event_without_movement (lineY now : ℚ) (p : TrackedPerson) (b : Box)
    (cx cy : ℚ) :
    (|cy - p.centerY| ≤ MIN_DISTANCE_FOR_CROSSING →
      (updateMatched lineY now p b cx cy).2 = (0, 0)) ∧
    (|cy - p.centerY| ≤ |cx - p.centerX| * (1/10) →
      (updateMatched lineY now p b cx cy).2 = (0, 0)) :=
  ⟨updateMatched_small_move lineY now p b cx cy,
   updateMatched_not_vertical lineY now p b cx cy⟩

/-- Witness for C6: a track at `y = 98` matched at `y = 102` (straddling the
line at `y = 100` with displacement 4) emits no event; a track moved 4 down
but 300 sideways emits no event. -/
theorem c6_witness :
    (updateMatched 100 1000 pUp ⟨80, 100, 40, 40⟩ 100 124).2 = (0, 0) ∧
    (updateMatched 100 1000 pDown ⟨80, 100, 40, 40⟩ 700 90).2 = (0, 0) := by
  constructor
  · exact (c6_no_event_without_movement 100 1000 pUp ⟨80, 100, 40, 40⟩ 100 124).1
      (by norm_num [pUp, MIN_DISTANCE_FOR_CROSSING])
  · exact (c6_no_event_without_movement 100 1000 pDown ⟨80, 100, 40, 40⟩ 700 90).2
      (by norm_num [pDown])

/-! ### Claim C3 -/

/-- C3: with frame height 200 and the line at `y = 100`, a matched track not
in cooldown moving from `y = 40` to `y = 120` yields exactly one entering
event (`countIn` 1, `countOut` 0), the symmetric move from `y = 120` to
`y = 40` yields exactly one exiting event, and in general a single evaluation
of a matched track emits at most one event (never both directions). -/
theorem c3_direction_correctness (sq : ℚ → ℚ) (hsq : sq 6400 = 80) :
    processFrame sq ⟨[pDown], 1⟩ [dDown] 200 1000 = (⟨[pDownAfter], 1⟩, 1, 0) ∧
    processFrame sq ⟨[pUp], 1⟩ [dUp] 200 1000 = (⟨[pUpAfter], 1⟩, 0, 1) ∧
    ∀ (lineY now : ℚ) (p : TrackedPerson) (b : Box) (cx cy : ℚ),
      (updateMatched lineY now p b cx cy).2.1 + (updateMatched lineY now p b cx cy).2.2 ≤ 1 := by
  refine ⟨?_, ?_, fun lineY now p b cx cy => updateMatched_at_most_one lineY now p b cx cy⟩
  · norm_num [processFrame, associate, sortDetections, insertByScore, assocStep,
      findClosestPerson, findStep, candidateScore, calculateDistance, calculateIoU,
      sizeSimilarity, updateMatched, cooldownPass, cooldownStep, cleanupTrackedPeople,
      detCenterX, detCenterY, CROSSING_LINE_POSITION, TRACKING_THRESHOLD, TRACKING_TIMEOUT,
      CROSSING_COOLDOWN, MIN_DISTANCE_FOR_CROSSING, pDown, dDown, pDownAfter, hsq]
  · norm_num [processFrame, associate, sortDetections, insertByScore, assocStep,
      findClosestPerson, findStep, candidateScore, calculateDistance, calculateIoU,
      sizeSimilarity, updateMatched, cooldownPass, cooldownStep, cleanupTrackedPeople,
      detCenterX, detCenterY, CROSSING_LINE_POSITION, TRACKING_THRESHOLD, TRACKING_TIMEOUT,
      CROSSING_COOLDOWN, MIN_DISTANCE_FOR_CROSSING, pUp, dUp, pUpAfter, hsq]

/-- Witness for C3, with the concrete square root `ratSqrt`. -/
theorem c3_witness :
    processFrame ratSqrt ⟨[pDown], 1⟩ [dDown] 200 1000 = (⟨[pDownAfter], 1⟩, 1, 0) ∧
    processFrame ratSqrt ⟨[pUp], 1⟩ [dUp] 200 1000 = (⟨[pUpAfter], 1⟩, 0, 1) := by
  have h := c3_direction_correctness ratSqrt (ratSqrt_eval 6400 80 (by decide) rfl)
  exact ⟨h.1, h.2.1⟩

/-! ### Claim C2 -/

/-- A crossed track below the line, just counted, used by the C2 witness. -/
def pFar : TrackedPerson :=
  { id := 0, bbox := ⟨80, 100, 40, 40⟩, centerX := 100, centerY := 120, previousY := 40,
    lastSeen := 1000, crossed := true, direction := some Direction.din,
    framesSinceCrossing := 0 }

/-- A far-side detection jittering around `y = 120`, used by the C2 witness. -/
def dFar : Det := { bbox := ⟨80, 101, 40, 40⟩, score := 9/10 }

/-- C2: the per-frame cooldown pass increments `framesSinceCrossing` for every
track with `crossed == true` and resets the crossing state (crossed false,
counter zero, direction none) exactly when the count reaches the cooldown
window; while `crossed == true` a matched track emits no event and stays in
cooldown; and over any run of frames whose detections all stay on the far
(lower) side of the line, a registry whose tracks are all on that side emits
zero further events — so one crossing followed by far-side reports yields
exactly the one event already counted. -/
theorem c2_cooldown_no_double_count :
    (∀ p : TrackedPerson,
      (p.crossed = true → p.framesSinceCrossing + 1 < CROSSING_COOLDOWN →
        cooldownStep p = { p with framesSinceCrossing := p.framesSinceCrossing + 1 }) ∧
      (p.crossed = true → CROSSING_COOLDOWN ≤ p.framesSinceCrossing + 1 →
        cooldownStep p = { p with crossed := false, framesSinceCrossing := 0,
                                  direction := none }) ∧
      (p.crossed = false → cooldownStep p = p)) ∧
    (∀ (lineY now : ℚ) (p : TrackedPerson) (b : Box) (cx cy : ℚ), p.crossed = true →
      (updateMatched lineY now p b cx cy).2 = (0, 0) ∧
      (updateMatched lineY now p b cx cy).1.crossed = true) ∧
    (∀ (sq : ℚ → ℚ) (st : TrackerState) (fh : ℚ) (frames : List (List Det × ℚ)),
      (∀ p ∈ st.people, p.centerY > fh * CROSSING_LINE_POSITION) →
      (∀ fr ∈ frames, ∀ d ∈ fr.1, detCenterY d > fh * CROSSING_LINE_POSITION) →
      (runFrames sq st fh frames).2 = (0, 0)) := by
  refine ⟨?_, ?_, ?_⟩
  · intro p
    refine ⟨?_, ?_, ?_⟩
    · intro hc hlt
      unfold cooldownStep
      rw [if_pos hc, if_neg (by omega)]
    · intro hc hge
      unfold cooldownStep
      rw [if_pos hc, if_pos (by omega)]
    · intro hc
      unfold cooldownStep
      rw [hc]
      simp
  · intro lineY now p b cx cy hc
    exact updateMatched_crossed lineY now p b cx cy hc
  · intro sq st fh frames hp hf
    unfold runFrames
    exact runFrames_far_aux sq fh frames st 0 0 hp hf

/-- Witness for C2: a track that crossed downward 4 frames ago advances its
counter, emits nothing while in cooldown, and two further far-side frames
produce zero events. -/
theorem c2_witness :
    cooldownStep { pFar with framesSinceCrossing := 4 } =
      { pFar with framesSinceCrossing := 5 } ∧
    (updateMatched 100 1000 pFar ⟨80, 100, 40, 40⟩ 100 90).2 = (0, 0) ∧
    (runFrames ratSqrt ⟨[pFar], 1⟩ 200 [([dFar], 1250), ([dFar], 1500)]).2 = (0, 0) := by
  refine ⟨?_, ?_, ?_⟩
  · exact (c2_cooldown_no_double_count.1 { pFar with framesSinceCrossing := 4 }).1 rfl
      (by norm_num [CROSSING_COOLDOWN])
  · exact (c2_cooldown_no_double_count.2.1 100 1000 pFar ⟨80, 100, 40, 40⟩ 100 90 rfl).1
  · refine c2_cooldown_no_double_count.2.2 ratSqrt ⟨[pFar], 1⟩ 200 [([dFar], 1250), ([dFar], 1500)] ?_ ?_
    · intro p hp
      rcases List.mem_singleton.1 hp with rfl
      norm_num [pFar, CROSSING_LINE_POSITION]
    · intro fr hfr d hd
      rcases List.mem_cons.1 hfr with rfl | hfr'
      · rcases List.mem_singleton.1 hd with rfl
        norm_num [dFar, detCenterY, CROSSING_LINE_POSITION]
      · rcases List.mem_singleton.1 hfr' with rfl
        rcases List.mem_singleton.1 hd with rfl
        norm_num [dFar, detCenterY, CROSSING_LINE_POSITION]

/-! ### Claim C7 -/

/-- A track 600 pixels from the origin, used by the C7 witness. -/
def pAway : TrackedPerson :=
  { id := 7, bbox := ⟨580, -20, 40, 40⟩, centerX := 600, centerY := 0, previousY := 0,
    lastSeen := 1000, crossed := false, direction := none, framesSinceCrossing := 0 }

/-- C7: the candidate score of a detection against a track equals
`0.5*iou + 0.3*max(0, 1 - distance/TRACKING_THRESHOLD) + 0.2*sizeSimilarity`
with `sizeSimilarity = min(areaA, areaB)/max(areaA, areaB)`, and a track whose
center distance to the detection exceeds `TRACKING_THRESHOLD` is excluded from
scoring entirely: deleting it from the registry does not change the result of
`findClosestPerson`. -/
theorem c7_score_and_exclusion :
    (∀ (sq : ℚ → ℚ) (b : Box) (cx cy : ℚ) (p : TrackedPerson),
      candidateScore sq b cx cy p =
        (1/2) * calculateIoU b p.bbox +
        (3/10) * max 0 (1 - calculateDistance sq cx cy p.centerX p.centerY / TRACKING_THRESHOLD) +
        (1/5) * (min (b.w * b.h) (p.bbox.w * p.bbox.h) /
                 max (b.w * b.h) (p.bbox.w * p.bbox.h))) ∧
    (∀ (sq : ℚ → ℚ) (l1 l2 : List TrackedPerson) (b : Box) (cx cy : ℚ) (p : TrackedPerson),
      calculateDistance sq cx cy p.centerX p.centerY > TRACKING_THRESHOLD →
      findClosestPerson sq (l1 ++ p :: l2) b cx cy = findClosestPerson sq (l1 ++ l2) b cx cy) := by
  constructor
  · intro sq b cx cy p
    unfold candidateScore sizeSimilarity
    ring
  · intro sq l1 l2 b cx cy p h
    unfold findClosestPerson
    have hstep : findStep sq b cx cy (List.foldl (findStep sq b cx cy) (none, 3/10) l1) p =
        List.foldl (findStep sq b cx cy) (none, 3/10) l1 := by
      unfold findStep
      rw [if_pos h]
    rw [List.foldl_append, List.foldl_cons, hstep, ← List.foldl_append]

/-- Witness for C7: a lone track 600 pixels away is never selected. -/
theorem c7_witness : findClosestPerson ratSqrt [pAway] ⟨-20, -20, 40, 40⟩ 0 0 = none := by
  have h := c7_score_and_exclusion.2 ratSqrt [] [] ⟨-20, -20, 40, 40⟩ 0 0 pAway
  have hd : calculateDistance ratSqrt 0 0 pAway.centerX pAway.centerY > TRACKING_THRESHOLD := by
    unfold calculateDistance TRACKING_THRESHOLD pAway
    norm_num
    rw [ratSqrt_eval 360000 600 (by decide) rfl]
    norm_num
  simpa [findClosestPerson] using h hd

/-! ### Claim C8 -/

/-- Counterexample to C8 as stated: for the pair of coincident zero-size boxes
`(0,0,0,0)` the guard is passed and the IoU division is performed with a zero
denominator (0/0, a NaN in JavaScript), so the computation does not avoid
division by zero for every pair of boxes. -/
theorem c8_counterexample : iouDividesByZero ⟨0, 0, 0, 0⟩ ⟨0, 0, 0, 0⟩ = true := by
  norm_num [iouDividesByZero]

/-- C8 amended: for boxes with positive width and height the IoU is in `[0,1]`
with no zero-denominator division, and is 0 when the boxes do not overlap;
against a degenerate box (zero or negative width or height) it is 0 with no
zero-denominator division provided the other box has positive width and
height; and the intersection area that reaches the division is never
negative.  (When both boxes are degenerate the division 0/0 can be reached,
as `c8_counterexample` shows.) -/
theorem c8_amended (b1 b2 : Box) :
    (0 < b1.w → 0 < b1.h → 0 < b2.w → 0 < b2.h →
      0 ≤ calculateIoU b1 b2 ∧ calculateIoU b1 b2 ≤ 1 ∧ iouDividesByZero b1 b2 = false) ∧
    (0 < b1.w → 0 < b1.h → 0 < b2.w → 0 < b2.h →
      (b1.x + b1.w ≤ b2.x ∨ b2.x + b2.w ≤ b1.x ∨ b1.y + b1.h ≤ b2.y ∨ b2.y + b2.h ≤ b1.y) →
      calculateIoU b1 b2 = 0) ∧
    ((b2.w ≤ 0 ∨ b2.h ≤ 0) → 0 < b1.w → 0 < b1.h →
      calculateIoU b1 b2 = 0 ∧ iouDividesByZero b1 b2 = false) ∧
    (¬ (min (b1.x + b1.w) (b2.x + b2.w) < max b1.x b2.x ∨
        min (b1.y + b1.h) (b2.y + b2.h) < max b1.y b2.y) →
      0 ≤ (min (b1.x + b1.w) (b2.x + b2.w) - max b1.x b2.x) *
          (min (b1.y + b1.h) (b2.y + b2.h) - max b1.y b2.y)) := by
  have hxl1 : b1.x ≤ max b1.x b2.x := le_max_left _ _
  have hxl2 : b2.x ≤ max b1.x b2.x := le_max_right _ _
  have hxr1 : min (b1.x + b1.w) (b2.x + b2.w) ≤ b1.x + b1.w := min_le_left _ _
  have hxr2 : min (b1.x + b1.w) (b2.x + b2.w) ≤ b2.x + b2.w := min_le_right _ _
  have hyl1 : b1.y ≤ max b1.y b2.y := le_max_left _ _
  have hyl2 : b2.y ≤ max b1.y b2.y := le_max_right _ _
  have hyr1 : min (b1.y + b1.h) (b2.y + b2.h) ≤ b1.y + b1.h := min_le_left _ _
  have hyr2 : min (b1.y + b1.h) (b2.y + b2.h) ≤ b2.y + b2.h := min_le_right _ _
  refine ⟨?_, ?_, ?_, ?_⟩
  · intro hw1 hh1 hw2 hh2
    unfold calculateIoU iouDividesByZero
    dsimp only
    split_ifs with hg
    · refine ⟨le_refl 0, by norm_num, rfl⟩
    · push_neg at hg
      set xL := max b1.x b2.x with hxL
      set yT := max b1.y b2.y with hyT
      set xR := min (b1.x + b1.w) (b2.x + b2.w) with hxR
      set yB := min (b1.y + b1.h) (b2.y + b2.h) with hyB
      have hwx : 0 ≤ xR - xL := by linarith [hg.1]
      have hwy : 0 ≤ yB - yT := by linarith [hg.2]
      have hI : 0 ≤ (xR - xL) * (yB - yT) := mul_nonneg hwx hwy
      have hIle1 : (xR - xL) * (yB - yT) ≤ b1.w * b1.h := by
        have h1 : xR - xL ≤ b1.w := by linarith
        have h2 : yB - yT ≤ b1.h := by linarith
        exact mul_le_mul h1 h2 hwy (le_of_lt hw1)
      have hIle2 : (xR - xL) * (yB - yT) ≤ b2.w * b2.h := by
        have h1 : xR - xL ≤ b2.w := by linarith
        have h2 : yB - yT ≤ b2.h := by linarith
        exact mul_le_mul h1 h2 hwy (le_of_lt hw2)
      have hU : 0 < b1.w * b1.h + b2.w * b2.h - (xR - xL) * (yB - yT) := by
        have : 0 < b2.w * b2.h := mul_pos hw2 hh2
        linarith
      refine ⟨div_nonneg hI (le_of_lt hU), ?_, ?_⟩
      · rw [div_le_one hU]
        linarith
      · simp only [decide_eq_false_iff_not]
        exact ne_of_gt hU
  · intro hw1 hh1 hw2 hh2 hsep
    unfold calculateIoU
    dsimp only
    split_ifs with hg
    · rfl
    · push_neg at hg
      have h0 : (min (b1.x + b1.w) (b2.x + b2.w) - max b1.x b2.x) *
          (min (b1.y + b1.h) (b2.y + b2.h) - max b1.y b2.y) = 0 := by
        rcases hsep with h | h | h | h
        · have : min (b1.x + b1.w) (b2.x + b2.w) = max b1.x b2.x := by
            apply le_antisymm _ hg.1
            calc min (b1.x + b1.w) (b2.x + b2.w) ≤ b1.x + b1.w := hxr1
              _ ≤ b2.x := h
              _ ≤ max b1.x b2.x := hxl2
          rw [this]; ring
        · have : min (b1.x + b1.w) (b2.x + b2.w) = max b1.x b2.x := by
            apply le_antisymm _ hg.1
            calc min (b1.x + b1.w) (b2.x + b2.w) ≤ b2.x + b2.w := hxr2
              _ ≤ b1.x := h
              _ ≤ max b1.x b2.x := hxl1
          rw [this]; ring
        · have : min (b1.y + b1.h) (b2.y + b2.h) = max b1.y b2.y := by
            apply le_antisymm _ hg.2
            calc min (b1.y + b1.h) (b2.y + b2.h) ≤ b1.y + b1.h := hyr1
              _ ≤ b2.y := h
              _ ≤ max b1.y b2.y := hyl2
          rw [this]; ring
        · have : min (b1.y + b1.h) (b2.y + b2.h) = max b1.y b2.y := by
            apply le_antisymm _ hg.2
            calc min (b1.y + b1.h) (b2.y + b2.h) ≤ b2.y + b2.h := hyr2
              _ ≤ b1.y := h
              _ ≤ max b1.y b2.y := hyl1
          rw [this]; ring
      rw [h0]
      simp
  · intro hdeg hw1 hh1
    unfold calculateIoU iouDividesByZero
    dsimp only
    split_ifs with hg
    · exact ⟨rfl, rfl⟩
    · push_neg at hg
      rcases hdeg with hw | hh
      · have hw0 : b2.w = 0 := by
          have h1 : b2.x ≤ min (b1.x + b1.w) (b2.x + b2.w) := le_trans hxl2 hg.1
          have h2 : min (b1.x + b1.w) (b2.x + b2.w) ≤ b2.x + b2.w := hxr2
          linarith
        have hfac : min (b1.x + b1.w) (b2.x + b2.w) - max b1.x b2.x = 0 := by
          have h1 : b2.x ≤ min (b1.x + b1.w) (b2.x + b2.w) := le_trans hxl2 hg.1
          have h2 : min (b1.x + b1.w) (b2.x + b2.w) ≤ b2.x + b2.w := hxr2
          have h3 : max b1.x b2.x ≤ min (b1.x + b1.w) (b2.x + b2.w) := hg.1
          have h4 : min (b1.x + b1.w) (b2.x + b2.w) ≤ max b1.x b2.x := by
            calc min (b1.x + b1.w) (b2.x + b2.w) ≤ b2.x + b2.w := hxr2
              _ = b2.x := by rw [hw0]; ring
              _ ≤ max b1.x b2.x := hxl2
          linarith
        have hA2 : b2.w * b2.h = 0 := by rw [hw0]; ring
        constructor
        · rw [hfac]
          simp
        · rw [hfac, hA2]
          have hU : b1.w * b1.h + 0 - 0 * (min (b1.y + b1.h) (b2.y + b2.h) - max b1.y b2.y) ≠ 0 := by
            have : 0 < b1.w * b1.h := mul_pos hw1 hh1
            intro hc
            rw [zero_mul] at hc
            linarith
          simp only [decide_eq_false_iff_not]
          exact hU
      · have hh0 : b2.h = 0 := by
          have h1 : b2.y ≤ min (b1.y + b1.h) (b2.y + b2.h) := le_trans hyl2 hg.2
          have h2 : min (b1.y + b1.h) (b2.y + b2.h) ≤ b2.y + b2.h := hyr2
          linarith
        have hfac : min (b1.y + b1.h) (b2.y + b2.h) - max b1.y b2.y = 0 := by
          have h4 : min (b1.y + b1.h) (b2.y + b2.h) ≤ max b1.y b2.y := by
            calc min (b1.y + b1.h) (b2.y + b2.h) ≤ b2.y + b2.h := hyr2
              _ = b2.y := by rw [hh0]; ring
              _ ≤ max b1.y b2.y := hyl2
          linarith [hg.2]
        have hA2 : b2.w * b2.h = 0 := by rw [hh0]; ring
        constructor
        · rw [hfac]
          simp
        · rw [hfac, hA2]
          have hU : b1.w * b1.h + 0 - (min (b1.x + b1.w) (b2.x + b2.w) - max b1.x b2.x) * 0 ≠ 0 := by
            have : 0 < b1.w * b1.h := mul_pos hw1 hh1
            intro hc
            rw [mul_zero] at hc
            linarith
          simp only [decide_eq_false_iff_not]
          exact hU
  · intro hg
    push_neg at hg
    have hwx : 0 ≤ min (b1.x + b1.w) (b2.x + b2.w) - max b1.x b2.x := by linarith [hg.1]
    have hwy : 0 ≤ min (b1.y + b1.h) (b2.y + b2.h) - max b1.y b2.y := by linarith [hg.2]
    exact mul_nonneg hwx hwy

/-- Witness for C8 amended: overlapping positive boxes, separated positive
boxes, and a degenerate second box. -/
theorem c8_witness :
    (0 ≤ calculateIoU ⟨0, 0, 4, 4⟩ ⟨2, 2, 4, 4⟩ ∧ calculateIoU ⟨0, 0, 4, 4⟩ ⟨2, 2, 4, 4⟩ ≤ 1 ∧
      iouDividesByZero ⟨0, 0, 4, 4⟩ ⟨2, 2, 4, 4⟩ = false) ∧
    calculateIoU ⟨0, 0, 4, 4⟩ ⟨10, 0, 4, 4⟩ = 0 ∧
    (calculateIoU ⟨0, 0, 4, 4⟩ ⟨1, 1, 0, 3⟩ = 0 ∧
      iouDividesByZero ⟨0, 0, 4, 4⟩ ⟨1, 1, 0, 3⟩ = false) := by
  refine ⟨?_, ?_, ?_⟩
  · exact (c8_amended ⟨0, 0, 4, 4⟩ ⟨2, 2, 4, 4⟩).1 (by norm_num) (by norm_num)
      (by norm_num) (by norm_num)
  · exact (c8_amended ⟨0, 0, 4, 4⟩ ⟨10, 0, 4, 4⟩).2.1 (by norm_num) (by norm_num)
      (by norm_num) (by norm_num) (by left; norm_num)
  · exact (c8_amended ⟨0, 0, 4, 4⟩ ⟨1, 1, 0, 3⟩).2.2.1 (by left; norm_num)
      (by norm_num) (by norm_num)

/-! ### Claim C1 -/

/-- First track of the C1 counterexample, centered at `(100, 100)`. -/
def t1C : TrackedPerson :=
  { id := 0, bbox := ⟨80, 80, 40, 40⟩, centerX := 100, centerY := 100, previousY := 100,
    lastSeen := 900, crossed := false, direction := none, framesSinceCrossing := 0 }

/-- Second track of the C1 counterexample, centered at `(100, 160)`. -/
def t2C : TrackedPerson :=
  { id := 1, bbox := ⟨80, 140, 40, 40⟩, centerX := 100, centerY := 160, previousY := 160,
    lastSeen := 900, crossed := false, direction := none, framesSinceCrossing := 0 }

/-- Higher-confidence detection, center `(100, 104)`: claims `t1C`. -/
def d1C : Det := { bbox := ⟨80, 84, 40, 40⟩, score := 9/10 }

/-- Lower-confidence detection, center `(100, 112)`: its best-scoring track is
the already-claimed `t1C`. -/
def d2C : Det := { bbox := ⟨80, 92, 40, 40⟩, score := 8/10 }

/-- `t1C` after being claimed by `d1C`. -/
def t1CAfter : TrackedPerson :=
  { id := 0, bbox := ⟨80, 84, 40, 40⟩, centerX := 100, centerY := 104, previousY := 100,
    lastSeen := 1000, crossed := false, direction := none, framesSinceCrossing := 0 }

/-- Counterexample to C1 as stated: detection `d2C`'s best-scoring track is
`t1C`, already claimed by the earlier, higher-confidence `d1C`; the unclaimed
track `t2C` is within range and scores above the 0.3 threshold against `d2C`,
yet the frame leaves `t2C` untouched (`lastSeen` still 900) and creates no new
track (registry still `[t1CAfter, t2C]`, fresh-id counter still 2) — the
detection is simply dropped, contradicting the claim that it would be matched
to the best unclaimed track above threshold or become a new track. -/
theorem c1_counterexample :
    processFrame ratSqrt ⟨[t1C, t2C], 2⟩ [d1C, d2C] 400 1000 = (⟨[t1CAfter, t2C], 2⟩, 0, 0) ∧
    candidateScore ratSqrt d2C.bbox 100 112 t2C > 3/10 ∧
    ¬ calculateDistance ratSqrt 100 112 t2C.centerX t2C.centerY > TRACKING_THRESHOLD ∧
    t2C.lastSeen = 900 := by
  have e1 : ratSqrt 16 = 4 := ratSqrt_eval 16 4 (by decide) rfl
  have e2 : ratSqrt 3136 = 56 := ratSqrt_eval 3136 56 (by decide) rfl
  have e3 : ratSqrt 64 = 8 := ratSqrt_eval 64 8 (by decide) rfl
  have e4 : ratSqrt 2304 = 48 := ratSqrt_eval 2304 48 (by decide) rfl
  refine ⟨?_, ?_, ?_, rfl⟩
  · norm_num [processFrame, associate, sortDetections, insertByScore, assocStep,
      findClosestPerson, findStep, candidateScore, calculateDistance, calculateIoU,
      sizeSimilarity, updateMatched, cooldownPass, cooldownStep, cleanupTrackedPeople,
      detCenterX, detCenterY, CROSSING_LINE_POSITION, TRACKING_THRESHOLD, TRACKING_TIMEOUT,
      CROSSING_COOLDOWN, MIN_DISTANCE_FOR_CROSSING, t1C, t2C, d1C, d2C, t1CAfter,
      e1, e2, e3, e4]
  · norm_num [candidateScore, calculateDistance, calculateIoU, sizeSimilarity,
      TRACKING_THRESHOLD, t2C, d2C, e4]
  · norm_num [calculateDistance, TRACKING_THRESHOLD, t2C, e4]

/-- C1 amended: association processes detections in descending order of
confidence (the processed list is sorted by descending score and is a
permutation of the input); `findClosestPerson` scores a detection against
every track, claimed or not; when it returns none the detection instantiates a
new track with a fresh unique identifier, initial position, zero crossing
state and current timestamp; when it returns an unclaimed track the detection
claims and updates that track; but when it returns a track already claimed
this frame the detection is discarded — neither matched to any other track nor
turned into a new track. -/
theorem c1_amended (sq : ℚ → ℚ) (lineY now : ℚ) (s : AssocState) (det : Det)
    (dets : List Det) :
    (sortDetections dets).Pairwise (fun a b => b.score ≤ a.score) ∧
    (sortDetections dets).Perm dets ∧
    (findClosestPerson sq s.people det.bbox (detCenterX det) (detCenterY det) = none →
      assocStep sq lineY now s det =
        { s with
          people := s.people ++
            [{ id := s.nextId, bbox := det.bbox, centerX := detCenterX det,
               centerY := detCenterY det, previousY := detCenterY det, lastSeen := now,
               crossed := false, direction := none, framesSinceCrossing := 0 }],
          matched := s.nextId :: s.matched,
          nextId := s.nextId + 1 }) ∧
    (∀ p, findClosestPerson sq s.people det.bbox (detCenterX det) (detCenterY det) = some p →
      p.id ∈ s.matched → assocStep sq lineY now s det = s) ∧
    (∀ p, findClosestPerson sq s.people det.bbox (detCenterX det) (detCenterY det) = some p →
      p.id ∉ s.matched →
      assocStep sq lineY now s det =
        { s with
          people := s.people.map (fun q => if q.id = p.id then
            (updateMatched lineY now p det.bbox (detCenterX det) (detCenterY det)).1 else q),
          matched := p.id :: s.matched,
          countIn := s.countIn +
            (updateMatched lineY now p det.bbox (detCenterX det) (detCenterY det)).2.1,
          countOut := s.countOut +
            (updateMatched lineY now p det.bbox (detCenterX det) (detCenterY det)).2.2 }) := by
  refine ⟨sortDetections_sorted dets, sortDetections_perm dets, ?_, ?_, ?_⟩
  · intro h
    unfold assocStep
    dsimp only
    rw [h]
  · intro p h hm
    unfold assocStep
    dsimp only
    rw [h]
    dsimp only
    rw [if_pos hm]
  · intro p h hm
    unfold assocStep
    dsimp only
    rw [h]
    dsimp only
    rw [if_neg hm]

/-- Witness for C1 amended: a detection with an empty registry becomes a fresh
track; a detection whose best track is already claimed leaves the state
unchanged. -/
theorem c1_witness :
    assocStep ratSqrt 100 1000 ⟨[], [], 0, 0, 5⟩ dDown =
      ⟨[{ id := 5, bbox := dDown.bbox, centerX := 100, centerY := 120, previousY := 120,
          lastSeen := 1000, crossed := false, direction := none, framesSinceCrossing := 0 }],
        [5], 0, 0, 6⟩ ∧
    assocStep ratSqrt 100 1000 ⟨[pDown], [0], 0, 0, 5⟩ dDown = ⟨[pDown], [0], 0, 0, 5⟩ := by
  constructor
  · have h := (c1_amended ratSqrt 100 1000 ⟨[], [], 0, 0, 5⟩ dDown []).2.2.1 rfl
    rw [h]
    norm_num [detCenterX, detCenterY, dDown]
  · have hfind : findClosestPerson ratSqrt [pDown] dDown.bbox (detCenterX dDown)
        (detCenterY dDown) = some pDown := by
      have e1 : ratSqrt 6400 = 80 := ratSqrt_eval 6400 80 (by decide) rfl
      norm_num [findClosestPerson, findStep, candidateScore, calculateDistance,
        calculateIoU, sizeSimilarity, TRACKING_THRESHOLD, detCenterX, detCenterY,
        pDown, dDown, e1]
    exact (c1_amended ratSqrt 100 1000 ⟨[pDown], [0], 0, 0, 5⟩ dDown []).2.2.2.1 pDown hfind
      (by norm_num [pDown])

/-! ### Claim C4 -/

/-- Frame-1 detection of person A, center `(100, 30)` (above the line). -/
def dA1 : Det := { bbox := ⟨70, -30, 60, 120⟩, score := 9/10 }

/-- Frame-1 detection of person B, center `(500, 170)` (below the line). -/
def dB1 : Det := { bbox := ⟨470, 110, 60, 120⟩, score := 8/10 }

/-- Person A's track after frame 1. -/
def tA1 : TrackedPerson :=
  { id := 0, bbox := ⟨70, -30, 60, 120⟩, centerX := 100, centerY := 30, previousY := 30,
    lastSeen := 1000, crossed := false, direction := none, framesSinceCrossing := 0 }

/-- Person B's track after frame 1. -/
def tB1 : TrackedPerson :=
  { id := 1, bbox := ⟨470, 110, 60, 120⟩, centerX := 500, centerY := 170, previousY := 170,
    lastSeen := 1000, crossed := false, direction := none, framesSinceCrossing := 0 }

/-- Frame-2 detection of person A, center `(100, 130)`: crossed down. -/
def dA2 : Det := { bbox := ⟨70, 70, 60, 120⟩, score := 9/10 }

/-- Frame-2 detection of person B, center `(500, 60)`: crossed up. -/
def dB2 : Det := { bbox := ⟨470, 0, 60, 120⟩, score := 8/10 }

/-- Person A's track after frame 2: an entering event was counted. -/
def tA2 : TrackedPerson :=
  { id := 0, bbox := ⟨70, 70, 60, 120⟩, centerX := 100, centerY := 130, previousY := 30,
    lastSeen := 1250, crossed := true, direction := some Direction.din,
    framesSinceCrossing := 0 }

/-- Person B's track after frame 2: an exiting event was counted. -/
def tB2 : TrackedPerson :=
  { id := 1, bbox := ⟨470, 0, 60, 120⟩, centerX := 500, centerY := 60, previousY := 170,
    lastSeen := 1250, crossed := true, direction := some Direction.dout,
    framesSinceCrossing := 0 }

/-- C4: the two-person scenario.  Persons at `y = 30` and `y = 170` in frame 1
(line at `y = 100`, frame height 200) are registered as two tracks; in frame 2
person A moves to `y = 130` and person B to `y = 60`, each detection scoring
highest against its own frame-1 track; the frame-2 result is exactly one entry
and one exit, and the registry still holds exactly the two tracks with the
identifiers they had after frame 1.  The hypotheses on `sq` are facts true of
the real square root at the five distances arising in the scenario. -/
theorem c4_two_person_scenario (sq : ℚ → ℚ)
    (h1 : sq 10000 = 100) (h2 : sq 12100 = 110)
    (h3 : sq 161600 > 400) (h4 : sq 164900 > 400) (h5 : sq 179600 > 400) :
    processFrame sq ⟨[], 0⟩ [dA1, dB1] 200 1000 = (⟨[tA1, tB1], 2⟩, 0, 0) ∧
    processFrame sq ⟨[tA1, tB1], 2⟩ [dA2, dB2] 200 1250 = (⟨[tA2, tB2], 2⟩, 1, 1) ∧
    tA2.id = tA1.id ∧ tB2.id = tB1.id := by
  refine ⟨?_, ?_, rfl, rfl⟩
  · norm_num [processFrame, associate, sortDetections, insertByScore, assocStep,
      findClosestPerson, findStep, candidateScore, calculateDistance, calculateIoU,
      sizeSimilarity, updateMatched, cooldownPass, cooldownStep, cleanupTrackedPeople,
      detCenterX, detCenterY, CROSSING_LINE_POSITION, TRACKING_THRESHOLD, TRACKING_TIMEOUT,
      CROSSING_COOLDOWN, MIN_DISTANCE_FOR_CROSSING, dA1, dB1, tA1, tB1, h5]
  · norm_num [processFrame, associate, sortDetections, insertByScore, assocStep,
      findClosestPerson, findStep, candidateScore, calculateDistance, calculateIoU,
      sizeSimilarity, updateMatched, cooldownPass, cooldownStep, cleanupTrackedPeople,
      detCenterX, detCenterY, CROSSING_LINE_POSITION, TRACKING_THRESHOLD, TRACKING_TIMEOUT,
      CROSSING_COOLDOWN, MIN_DISTANCE_FOR_CROSSING, dA2, dB2, tA1, tB1, tA2, tB2,
      h1, h2, h3, h4]

/-- Witness for C4, with the concrete square root `ratSqrt`. -/
theorem c4_witness :
    processFrame ratSqrt ⟨[], 0⟩ [dA1, dB1] 200 1000 = (⟨[tA1, tB1], 2⟩, 0, 0) ∧
    processFrame ratSqrt ⟨[tA1, tB1], 2⟩ [dA2, dB2] 200 1250 = (⟨[tA2, tB2], 2⟩, 1, 1) := by
  have h := c4_two_person_scenario ratSqrt
    (ratSqrt_eval 10000 100 (by decide) rfl)
    (ratSqrt_eval 12100 110 (by decide) rfl)
    (by rw [ratSqrt_eval 161600 401 (by decide) rfl]; norm_num)
    (by rw [ratSqrt_eval 164900 406 (by decide) rfl]; norm_num)
    (by rw [ratSqrt_eval 179600 423 (by decide) rfl]; norm_num)
  exact ⟨h.1, h.2.1⟩

/-! ### Invariants of the association loop -/

theorem idsOf_replace (people : List TrackedPerson) (i : ℕ) (r : TrackedPerson)
    (hr : r.id = i) :
    idsOf (people.map (fun q => if q.id = i then r else q)) = idsOf people := by
  unfold idsOf
  rw [List.map_map]
  apply List.map_congr_left
  intro q _
  by_cases h : q.id = i
  · simp [h, hr]
  · simp [h]

theorem nodup_ids_inj (l : List TrackedPerson) (h : (idsOf l).Nodup) :
    ∀ p ∈ l, ∀ q ∈ l, p.id = q.id → p = q := by
  induction l with
  | nil => intro p hp; cases hp
  | cons a t ih =>
      unfold idsOf at h
      rw [List.map_cons, List.nodup_cons] at h
      intro p hp q hq hpq
      rcases List.mem_cons.1 hp with rfl | hp'
      · rcases List.mem_cons.1 hq with rfl | hq'
        · rfl
        · exact absurd (hpq ▸ List.mem_map_of_mem (fun x => x.id) hq') h.1
      · rcases List.mem_cons.1 hq with rfl | hq'
        · exact absurd (hpq ▸ List.mem_map_of_mem (fun x => x.id) hp') h.1
        · exact ih h.2 p hp' q hq' hpq

theorem mem_idsOf (l : List TrackedPerson) (p : TrackedPerson) (h : p ∈ l) :
    p.id ∈ idsOf l := List.mem_map_of_mem (fun x => x.id) h

theorem filter_notmem_cons_length (i : ℕ) :
    ∀ (l : List ℕ) (m : List ℕ), l.Nodup → i ∈ l → i ∉ m →
      ((l.filter (fun j => j ∉ i :: m)).length) + 1 =
      (l.filter (fun j => j ∉ m)).length := by
  intro l
  induction l with
  | nil => intro m _ hi; cases hi
  | cons a t ih =>
      intro m hnd hi him
      rw [List.nodup_cons] at hnd
      rcases List.mem_cons.1 hi with heq | hit
      · subst heq
        have h1 : ¬ (i ∉ i :: m) := fun hc => hc (List.mem_cons_self _ _)
        have h2 : (t.filter (fun j => j ∉ i :: m)) = t.filter (fun j => j ∉ m) := by
          apply List.filter_congr
          intro j hj
          have hja : j ≠ i := fun hc => hnd.1 (hc ▸ hj)
          simp [List.mem_cons, hja, him]
        simp only [List.filter_cons]
        rw [if_neg (by simpa using h1), if_pos (by simpa using him), h2]
        simp
      · have hia : i ≠ a := fun hc => hnd.1 (hc ▸ hit)
        by_cases ham : a ∈ m
        · have g1 : ¬ (a ∉ i :: m) := fun hc => hc (List.mem_cons_of_mem _ ham)
          have g2 : ¬ (a ∉ m) := fun hc => hc ham
          simp only [List.filter_cons]
          rw [if_neg (by simpa using g1), if_neg (by simpa using g2)]
          exact ih m hnd.2 hit him
        · have g1 : a ∉ i :: m := by
            intro hc
            rcases List.mem_cons.1 hc with hc' | hc'
            · exact hia hc'.symm
            · exact ham hc'
          simp only [List.filter_cons]
          rw [if_pos (by simpa using g1), if_pos (by simpa using ham)]
          simp only [List.length_cons]
          rw [← ih m hnd.2 hit him]

/-- Well-formedness of the association loop state: registry ids are below the
fresh-id counter and pairwise distinct. -/
def WFA (s : AssocState) : Prop :=
  (∀ p ∈ s.people, p.id < s.nextId) ∧ (idsOf s.people).Nodup

/-- Number of registry entries not yet claimed this frame. -/
def unclaimedCount (s : AssocState) : ℕ :=
  ((idsOf s.people).filter (fun i => i ∉ s.matched)).length

/-- Everything one association step (and hence the whole association loop)
guarantees, relating the state before to the state after: well-formedness is
preserved, the fresh-id counter and the claimed set only grow, new ids are
fresh, an already-claimed person is never touched again, an unclaimed person
is either left alone and unclaimed or claimed and stamped with `now`, every
person that was not in the registry before was created this frame (claimed,
with `previousY = centerY` and clear crossing state), and the event count
grows at most by the number of pre-existing people claimed. -/
def StepRel (now : ℚ) (s s' : AssocState) : Prop :=
  WFA s' ∧
  s.nextId ≤ s'.nextId ∧
  (∀ i ∈ s.matched, i ∈ s'.matched) ∧
  (∃ fresh : List ℕ, idsOf s'.people = idsOf s.people ++ fresh ∧
    ∀ i ∈ fresh, s.nextId ≤ i) ∧
  (∀ p ∈ s.people, p.id ∈ s.matched → p ∈ s'.people) ∧
  (∀ p ∈ s.people, p.id ∉ s.matched →
    (p ∈ s'.people ∧ p.id ∉ s'.matched) ∨
    (∃ p', p' ∈ s'.people ∧ p'.id = p.id ∧ p'.lastSeen = now ∧ p'.id ∈ s'.matched)) ∧
  (∀ p' ∈ s'.people, p'.id ∉ idsOf s.people →
    p'.previousY = p'.centerY ∧ p'.crossed = false ∧ p'.id ∈ s'.matched) ∧
  (s'.countIn + s'.countOut + unclaimedCount s' ≤
    s.countIn + s.countOut + unclaimedCount s)

theorem StepRel_refl (now : ℚ) (s : AssocState) (h : WFA s) : StepRel now s s := by
  refine ⟨h, le_refl _, fun i hi => hi, ⟨[], by simp, by simp⟩, fun p hp _ => hp,
    fun p hp hm => Or.inl ⟨hp, hm⟩, ?_, le_refl _⟩
  intro p' hp' hni
  exact absurd (mem_idsOf _ _ hp') hni

theorem StepRel_trans (now : ℚ) (a b c : AssocState)
    (hab : StepRel now a b) (hbc : StepRel now b c) : StepRel now a c := by
  obtain ⟨hwb, hn1, hm1, ⟨f1, hf1, hb1⟩, hp51, hp61, hp71, hc1⟩ := hab
  obtain ⟨hwc, hn2, hm2, ⟨f2, hf2, hb2⟩, hp52, hp62, hp72, hc2⟩ := hbc
  refine ⟨hwc, le_trans hn1 hn2, fun i hi => hm2 i (hm1 i hi), ?_, ?_, ?_, ?_, le_trans hc2 hc1⟩
  · refine ⟨f1 ++ f2, ?_, ?_⟩
    · rw [hf2, hf1, List.append_assoc]
    · intro i hi
      rcases List.mem_append.1 hi with h | h
      · exact hb1 i h
      · exact le_trans hn1 (hb2 i h)
  · intro p hp hm
    exact hp52 p (hp51 p hp hm) (hm1 p.id hm)
  · intro p hp hm
    rcases hp61 p hp hm with ⟨hpb, hmb⟩ | ⟨p', hp', hid, hls, hms⟩
    · exact hp62 p hpb hmb
    · exact Or.inr ⟨p', hp52 p' hp' hms, hid, hls, hm2 p'.id hms⟩
  · intro p' hp' hni
    by_cases hb : p'.id ∈ idsOf b.people
    · rcases List.mem_map.1 hb with ⟨pb, hpbm, hpbid⟩
      have hprops := hp71 pb hpbm (by rw [hpbid]; exact hni)
      have hpc : pb ∈ c.people := hp52 pb hpbm hprops.2.2
      have : p' = pb := nodup_ids_inj c.people hwc.2 p' hp' pb hpc (by rw [hpbid])
      rw [this]
      exact ⟨hprops.1, hprops.2.1, hm2 pb.id hprops.2.2⟩
    · exact hp72 p' hp' hb

theorem idsOf_append_single (l : List TrackedPerson) (p : TrackedPerson) :
    idsOf (l ++ [p]) = idsOf l ++ [p.id] := by
  unfold idsOf
  rw [List.map_append]
  rfl

theorem assocStep_StepRel (sq : ℚ → ℚ) (lineY now : ℚ) (s : AssocState) (det : Det)
    (hwf : WFA s) : StepRel now s (assocStep sq lineY now s det) := by
  have hlt : ∀ i ∈ idsOf s.people, i < s.nextId := by
    intro i hi
    rcases List.mem_map.1 hi with ⟨p, hp, rfl⟩
    exact hwf.1 p hp
  unfold assocStep
  dsimp only
  cases hf : findClosestPerson sq s.people det.bbox (detCenterX det) (detCenterY det) with
  | none =>
      dsimp only
      have hideq : idsOf (s.people ++
          [{ id := s.nextId, bbox := det.bbox, centerX := detCenterX det,
             centerY := detCenterY det, previousY := detCenterY det, lastSeen := now,
             crossed := false, direction := none,
             framesSinceCrossing := 0 : TrackedPerson }]) = idsOf s.people ++ [s.nextId] :=
        idsOf_append_single s.people _
      refine ⟨⟨?_, ?_⟩, Nat.le_succ _, fun i hi => List.mem_cons_of_mem _ hi,
        ⟨[s.nextId], hideq, by simp⟩, ?_, ?_, ?_, ?_⟩
      · intro p hp
        rcases List.mem_append.1 hp with h | h
        · exact lt_trans (hwf.1 p h) (Nat.lt_succ_self _)
        · rcases List.mem_singleton.1 h with rfl
          exact Nat.lt_succ_self _
      · rw [hideq, List.nodup_append]
        refine ⟨hwf.2, List.nodup_singleton _, ?_⟩
        intro i hi hi2
        rcases List.mem_singleton.1 hi2 with rfl
        exact absurd (hlt _ hi) (lt_irrefl _)
      · intro p hp _
        exact List.mem_append_left _ hp
      · intro p hp hm
        left
        refine ⟨List.mem_append_left _ hp, ?_⟩
        intro hc
        rcases List.mem_cons.1 hc with he | he
        · exact absurd (he ▸ hwf.1 p hp) (lt_irrefl _)
        · exact hm he
      · intro p' hp' hni
        rcases List.mem_append.1 hp' with h | h
        · exact absurd (mem_idsOf _ _ h) hni
        · rcases List.mem_singleton.1 h with rfl
          exact ⟨rfl, rfl, List.mem_cons_self _ _⟩
      · dsimp only [unclaimedCount]
        rw [hideq, List.filter_append]
        have h1 : (([s.nextId] : List ℕ).filter (fun i => i ∉ s.nextId :: s.matched)) = [] := by
          simp
        have h2 : (idsOf s.people).filter (fun i => i ∉ s.nextId :: s.matched) =
            (idsOf s.people).filter (fun i => i ∉ s.matched) := by
          apply List.filter_congr
          intro i hi
          have hne : i ≠ s.nextId := Nat.ne_of_lt (hlt i hi)
          simp [List.mem_cons, hne]
        rw [h1, h2]
        simp
  | some p0 =>
      dsimp only
      by_cases hm : p0.id ∈ s.matched
      · rw [if_pos hm]
        exact StepRel_refl now s hwf
      · rw [if_neg hm]
        have hp0mem : p0 ∈ s.people :=
          findClosestPerson_mem sq s.people det.bbox _ _ p0 hf
        have hidseq : idsOf (s.people.map (fun q => if q.id = p0.id then
            (updateMatched lineY now p0 det.bbox (detCenterX det) (detCenterY det)).1 else q)) =
            idsOf s.people :=
          idsOf_replace s.people p0.id _ (updateMatched_id lineY now p0 det.bbox _ _)
        refine ⟨⟨?_, ?_⟩, le_refl _, fun i hi => List.mem_cons_of_mem _ hi,
          ⟨[], by rw [hidseq, List.append_nil], by simp⟩, ?_, ?_, ?_, ?_⟩
        · intro p hp
          have : p.id ∈ idsOf s.people := hidseq ▸ mem_idsOf _ _ hp
          exact hlt p.id this
        · rw [hidseq]
          exact hwf.2
        · intro p hp hpm
          have hne : p.id ≠ p0.id := fun hc => hm (hc ▸ hpm)
          exact List.mem_map.2 ⟨p, hp, if_neg hne⟩
        · intro p hp hpm
          by_cases hpp : p.id = p0.id
          · right
            have hpe : p = p0 := nodup_ids_inj s.people hwf.2 p hp p0 hp0mem hpp
            refine ⟨(updateMatched lineY now p0 det.bbox (detCenterX det) (detCenterY det)).1,
              ?_, ?_, ?_, ?_⟩
            · exact List.mem_map.2 ⟨p0, hp0mem, if_pos rfl⟩
            · rw [updateMatched_id, hpe]
            · exact updateMatched_lastSeen lineY now p0 det.bbox _ _
            · rw [updateMatched_id]
              exact List.mem_cons_self _ _
          · left
            refine ⟨List.mem_map.2 ⟨p, hp, if_neg hpp⟩, ?_⟩
            intro hc
            rcases List.mem_cons.1 hc with he | he
            · exact hpp he
            · exact hpm he
        · intro p' hp' hni
          exact absurd (hidseq ▸ mem_idsOf _ _ hp') hni
        · dsimp only [unclaimedCount]
          rw [hidseq]
          have h1 := filter_notmem_cons_length p0.id (idsOf s.people) s.matched hwf.2
            (mem_idsOf _ _ hp0mem) hm
          have h2 := updateMatched_at_most_one lineY now p0 det.bbox (detCenterX det)
            (detCenterY det)
          omega

theorem foldl_StepRel (sq : ℚ → ℚ) (lineY now : ℚ) :
    ∀ (dets : List Det) (s : AssocState), WFA s →
      StepRel now s (dets.foldl (assocStep sq lineY now) s) := by
  intro dets
  induction dets with
  | nil => intro s h; exact StepRel_refl now s h
  | cons d ds ih =>
      intro s h
      have hstep := assocStep_StepRel sq lineY now s d h
      exact StepRel_trans now s _ _ hstep (ih _ hstep.1)

theorem cooldownStep_of_not_crossed (p : TrackedPerson) (h : p.crossed = false) :
    cooldownStep p = p := by
  unfold cooldownStep
  rw [h]
  simp

theorem idsOf_cooldownPass (l : List TrackedPerson) :
    idsOf (cooldownPass l) = idsOf l := by
  unfold idsOf cooldownPass
  rw [List.map_map]
  apply List.map_congr_left
  intro p _
  exact cooldownStep_id p

theorem mem_ids_cleanup (now : ℚ) (l : List TrackedPerson) (i : ℕ)
    (h : i ∈ idsOf (cleanupTrackedPeople now l)) : i ∈ idsOf l := by
  rcases List.mem_map.1 h with ⟨q, hq, rfl⟩
  exact mem_idsOf _ _ (List.mem_of_mem_filter hq)

theorem WFA_start (sq : ℚ → ℚ) (st : TrackerState) (now : ℚ) (h : WF st) :
    WFA { people := cooldownPass (cleanupTrackedPeople now st.people), matched := [],
          countIn := 0, countOut := 0, nextId := st.nextId : AssocState } := by
  constructor
  · intro p hp
    have : p.id ∈ idsOf (cooldownPass (cleanupTrackedPeople now st.people)) := mem_idsOf _ _ hp
    rw [idsOf_cooldownPass] at this
    have := mem_ids_cleanup now st.people p.id this
    rcases List.mem_map.1 this with ⟨q, hq, hqe⟩
    exact hqe ▸ h.1 q hq
  · show (idsOf (cooldownPass (cleanupTrackedPeople now st.people))).Nodup
    rw [idsOf_cooldownPass]
    unfold cleanupTrackedPeople idsOf
    exact List.Nodup.sublist ((List.filter_sublist st.people).map (fun x => x.id)) h.2

/-- The registry invariant of claim C9: a track not in cooldown carries no
residual crossing state, a track in cooldown has a direction, and the cooldown
counter never reaches the window. -/
def Good (p : TrackedPerson) : Prop :=
  (p.crossed = false → p.framesSinceCrossing = 0 ∧ p.direction = none) ∧
  (p.crossed = true → p.direction ≠ none) ∧
  p.framesSinceCrossing < CROSSING_COOLDOWN

theorem cooldownStep_good (p : TrackedPerson) (h : Good p) : Good (cooldownStep p) := by
  unfold cooldownStep
  dsimp only
  split_ifs with h1 h2
  · refine ⟨fun _ => ⟨rfl, rfl⟩, fun hc => by simp at hc, by norm_num [CROSSING_COOLDOWN]⟩
  · refine ⟨fun hc => by simp [h1] at hc, fun _ => h.2.1 h1, ?_⟩
    simp only [not_le] at h2
    exact h2
  · exact h

theorem updateMatched_good (lineY now : ℚ) (p : TrackedPerson) (b : Box) (cx cy : ℚ)
    (h : Good p) : Good (updateMatched lineY now p b cx cy).1 := by
  unfold updateMatched
  dsimp only
  split_ifs with h1 h2 h3 h4
  · exact h
  · refine ⟨fun hc => by simp at hc, fun _ => by simp, by norm_num [CROSSING_COOLDOWN]⟩
  · refine ⟨fun hc => by simp at hc, fun _ => by simp, by norm_num [CROSSING_COOLDOWN]⟩
  · exact h
  · exact h

theorem assocStep_good (sq : ℚ → ℚ) (lineY now : ℚ) (s : AssocState) (det : Det)
    (h : ∀ p ∈ s.people, Good p) :
    ∀ p ∈ (assocStep sq lineY now s det).people, Good p := by
  unfold assocStep
  dsimp only
  cases hf : findClosestPerson sq s.people det.bbox (detCenterX det) (detCenterY det) with
  | none =>
      dsimp only
      intro p hp
      rcases List.mem_append.1 hp with h1 | h1
      · exact h p h1
      · rcases List.mem_singleton.1 h1 with rfl
        exact ⟨fun _ => ⟨rfl, rfl⟩, fun hc => by simp at hc, by norm_num [CROSSING_COOLDOWN]⟩
  | some p0 =>
      dsimp only
      split_ifs with hm
      · exact h
      · intro p hp
        rcases List.mem_map.1 hp with ⟨q, hq, hqe⟩
        by_cases hid : q.id = p0.id
        · rw [if_pos hid] at hqe
          rw [← hqe]
          exact updateMatched_good lineY now p0 det.bbox _ _
            (h p0 (findClosestPerson_mem sq s.people det.bbox _ _ p0 hf))
        · rw [if_neg hid] at hqe
          rw [← hqe]
          exact h q hq

theorem foldl_assocStep_good (sq : ℚ → ℚ) (lineY now : ℚ) :
    ∀ (dets : List Det) (s : AssocState), (∀ p ∈ s.people, Good p) →
      ∀ p ∈ (dets.foldl (assocStep sq lineY now) s).people, Good p := by
  intro dets
  induction dets with
  | nil => intro s h; exact h
  | cons d ds ih =>
      intro s h
      exact ih _ (assocStep_good sq lineY now s d h)

/-! ### Claim C9 -/

/-- C9: the registry invariant is preserved by every per-frame processing call
and holds after a reset: if every track satisfies `Good` (no cooldown implies
zero counter and no direction; cooldown implies a direction; the counter is
strictly below the cooldown window) before a frame, every track does after the
frame, and the reset registry trivially satisfies it. -/
theorem c9_registry_invariant (sq : ℚ → ℚ) (st : TrackerState) (dets : List Det)
    (fh now : ℚ) (h : ∀ p ∈ st.people, Good p) :
    (∀ p ∈ (processFrame sq st dets fh now).1.people, Good p) ∧
    (∀ p ∈ resetTracker.people, Good p) := by
  refine ⟨?_, by intro p hp; cases hp⟩
  unfold processFrame
  dsimp only
  intro p hp
  have hp' := List.mem_of_mem_filter hp
  refine foldl_assocStep_good sq (fh * CROSSING_LINE_POSITION) now (sortDetections dets)
    { people := cooldownPass (cleanupTrackedPeople now st.people), matched := [],
      countIn := 0, countOut := 0, nextId := st.nextId } ?_ p hp'
  intro q hq
  rcases List.mem_map.1 hq with ⟨r, hr, hre⟩
  rw [← hre]
  exact cooldownStep_good r (h r (List.mem_of_mem_filter hr))

/-- Witness for C9: a single well-formed track, one matching detection; the
track after the frame (which counted its crossing) still satisfies the
invariant. -/
theorem c9_witness : Good pDownAfter := by
  have heval : processFrame ratSqrt ⟨[pDown], 1⟩ [dDown] 200 1000 =
      (⟨[pDownAfter], 1⟩, 1, 0) := by
    have e1 : ratSqrt 6400 = 80 := ratSqrt_eval 6400 80 (by decide) rfl
    norm_num [processFrame, associate, sortDetections, insertByScore, assocStep,
      findClosestPerson, findStep, candidateScore, calculateDistance, calculateIoU,
      sizeSimilarity, updateMatched, cooldownPass, cooldownStep, cleanupTrackedPeople,
      detCenterX, detCenterY, CROSSING_LINE_POSITION, TRACKING_THRESHOLD, TRACKING_TIMEOUT,
      CROSSING_COOLDOWN, MIN_DISTANCE_FOR_CROSSING, pDown, dDown, pDownAfter, e1]
  have h := (c9_registry_invariant ratSqrt ⟨[pDown], 1⟩ [dDown] 200 1000 ?_).1
  · apply h
    rw [heval]
    exact List.mem_singleton_self _
  · intro p hp
    rcases List.mem_singleton.1 hp with rfl
    exact ⟨fun _ => ⟨rfl, rfl⟩, fun hc => by simp [pDown] at hc,
      by norm_num [pDown, CROSSING_COOLDOWN]⟩

theorem associate_StepRel (sq : ℚ → ℚ) (lineY now : ℚ) (st : TrackerState)
    (dets : List Det) (hwf : WF st) :
    StepRel now
      { people := cooldownPass (cleanupTrackedPeople now st.people), matched := [],
        countIn := 0, countOut := 0, nextId := st.nextId }
      (associate sq lineY now (cooldownPass (cleanupTrackedPeople now st.people))
        st.nextId dets) := by
  unfold associate
  exact foldl_StepRel sq lineY now (sortDetections dets) _ (WFA_start sq st now hwf)

/-! ### Claim C10 -/

/-- C10: a track created during a frame never contributes an event in that
frame.  Every person in the post-frame registry whose id was not in the
registry before the frame has `previousY = centerY` and clear crossing state;
the number of events counted in a frame is bounded by the number of
pre-existing (timeout-surviving) tracks; and a frame starting from an empty
registry counts no events at all, whatever its detections. -/
theorem c10_new_track_no_event (sq : ℚ → ℚ) (st : TrackerState) (dets : List Det)
    (fh now : ℚ) (hwf : WF st) :
    (∀ p' ∈ (processFrame sq st dets fh now).1.people, p'.id ∉ idsOf st.people →
      p'.previousY = p'.centerY ∧ p'.crossed = false) ∧
    ((processFrame sq st dets fh now).2.1 + (processFrame sq st dets fh now).2.2 ≤
      (cleanupTrackedPeople now st.people).length) ∧
    (st.people = [] → (processFrame sq st dets fh now).2 = (0, 0)) := by
  have hrel := associate_StepRel sq (fh * CROSSING_LINE_POSITION) now st dets hwf
  obtain ⟨hwfa, hnext, hmono, ⟨fresh, hfr, hfb⟩, hP5, hP6, hP7, hP8⟩ := hrel
  have hu0 : unclaimedCount
      { people := cooldownPass (cleanupTrackedPeople now st.people), matched := [],
        countIn := 0, countOut := 0, nextId := st.nextId : AssocState } =
      (cleanupTrackedPeople now st.people).length := by
    unfold unclaimedCount
    dsimp only
    rw [idsOf_cooldownPass]
    have : ((idsOf (cleanupTrackedPeople now st.people)).filter
        (fun i => i ∉ ([] : List ℕ))) = idsOf (cleanupTrackedPeople now st.people) := by
      apply List.filter_eq_self.2
      intro i _
      simp
    rw [this]
    unfold idsOf
    rw [List.length_map]
  unfold processFrame
  dsimp only
  refine ⟨?_, ?_, ?_⟩
  · intro p' hp' hni
    have hmem : p' ∈ (associate sq (fh * CROSSING_LINE_POSITION) now
        (cooldownPass (cleanupTrackedPeople now st.people)) st.nextId dets).people :=
      List.mem_of_mem_filter hp'
    have hni1 : p'.id ∉ idsOf (cooldownPass (cleanupTrackedPeople now st.people)) := by
      rw [idsOf_cooldownPass]
      intro hc
      exact hni (mem_ids_cleanup now st.people p'.id hc)
    have := hP7 p' hmem hni1
    exact ⟨this.1, this.2.1⟩
  · dsimp only at hP8
    omega
  · intro hempty
    have hclean : cleanupTrackedPeople now st.people = [] := by
      rw [hempty]
      rfl
    have hlen0 : (cleanupTrackedPeople now st.people).length = 0 := by
      rw [hclean]
      rfl
    dsimp only at hP8
    have h1 : (associate sq (fh * CROSSING_LINE_POSITION) now
        (cooldownPass (cleanupTrackedPeople now st.people)) st.nextId dets).countIn = 0 := by
      omega
    have h2 : (associate sq (fh * CROSSING_LINE_POSITION) now
        (cooldownPass (cleanupTrackedPeople now st.people)) st.nextId dets).countOut = 0 := by
      omega
    rw [h1, h2]

/-- Witness for C10: from an empty registry, a frame with one detection
creates a track but counts nothing. -/
theorem c10_witness : (processFrame ratSqrt ⟨[], 0⟩ [dDown] 200 1000).2 = (0, 0) :=
  (c10_new_track_no_event ratSqrt ⟨[], 0⟩ [dDown] 200 1000
    ⟨fun p hp => absurd hp (List.not_mem_nil p), by simp [idsOf]⟩).2.2 rfl

/-! ### Claim C5 -/

/-- A track last seen 600 ms ago, used by the C5 counterexample. -/
def pGrace : TrackedPerson :=
  { id := 0, bbox := ⟨80, 20, 40, 40⟩, centerX := 100, centerY := 40, previousY := 40,
    lastSeen := 0, crossed := false, direction := none, framesSinceCrossing := 0 }

/-- Counterexample to C5 as stated: a track unmatched for 600 ms — well within
the 3000 ms timeout budget, and within timeout plus the 500 ms grace — is
nevertheless removed from the registry by the post-association pass, because
that pass deletes any unmatched track older than the 500 ms grace period
alone.  So removal is not "exactly when unseen longer than the timeout
budget or reset". -/
theorem c5_counterexample :
    processFrame ratSqrt ⟨[pGrace], 1⟩ [] 400 600 = (⟨[], 1⟩, 0, 0) ∧
    ¬ (600 : ℚ) - pGrace.lastSeen > TRACKING_TIMEOUT ∧
    ¬ (600 : ℚ) - pGrace.lastSeen > TRACKING_TIMEOUT + 500 := by
  refine ⟨?_, ?_, ?_⟩
  · norm_num [processFrame, associate, sortDetections, assocStep, cooldownPass,
      cooldownStep, cleanupTrackedPeople, CROSSING_LINE_POSITION, TRACKING_TIMEOUT, pGrace]
  · norm_num [pGrace, TRACKING_TIMEOUT]
  · norm_num [pGrace, TRACKING_TIMEOUT]

/-- C5 amended: a pre-existing track's id survives the frame exactly when it
is within the 3000 ms timeout and is either matched this frame or within the
500 ms grace period; an unmatched track within grace that is not in cooldown
is retained with every field unmodified; a track beyond the timeout is removed
before association (hence excluded from scoring) and is absent from the final
registry; and reset empties the registry. -/
theorem c5_amended (sq : ℚ → ℚ) (st : TrackerState) (dets : List Det) (fh now : ℚ)
    (hwf : WF st) (p : TrackedPerson) (hp : p ∈ st.people) :
    (p.id ∈ idsOf (processFrame sq st dets fh now).1.people ↔
      (¬ now - p.lastSeen > TRACKING_TIMEOUT ∧
        (p.id ∈ (associate sq (fh * CROSSING_LINE_POSITION) now
            (cooldownPass (cleanupTrackedPeople now st.people)) st.nextId dets).matched ∨
          ¬ now - p.lastSeen > 500))) ∧
    (p.crossed = false → ¬ now - p.lastSeen > 500 →
      p.id ∉ (associate sq (fh * CROSSING_LINE_POSITION) now
          (cooldownPass (cleanupTrackedPeople now st.people)) st.nextId dets).matched →
      p ∈ (processFrame sq st dets fh now).1.people) ∧
    (now - p.lastSeen > TRACKING_TIMEOUT →
      p.id ∉ idsOf (cleanupTrackedPeople now st.people) ∧
      p.id ∉ idsOf (processFrame sq st dets fh now).1.people) ∧
    resetTracker.people = [] := by
  obtain ⟨hwfa, hnext, hmono, ⟨fresh, hfr, hfb⟩, hP5, hP6, hP7, hP8⟩ :=
    associate_StepRel sq (fh * CROSSING_LINE_POSITION) now st dets hwf
  have hA : now - p.lastSeen > TRACKING_TIMEOUT →
      p.id ∉ idsOf (cleanupTrackedPeople now st.people) := by
    intro h3 hc
    rcases List.mem_map.1 hc with ⟨q, hq, hqe⟩
    have hq' : q ∈ st.people := List.mem_of_mem_filter hq
    have : q = p := nodup_ids_inj st.people hwf.2 q hq' p hp hqe
    subst this
    have := (List.mem_filter.1 hq).2
    rw [decide_eq_true_eq] at this
    exact this h3
  have hfr' : idsOf (associate sq (fh * CROSSING_LINE_POSITION) now
      (cooldownPass (cleanupTrackedPeople now st.people)) st.nextId dets).people =
      idsOf (cleanupTrackedPeople now st.people) ++ fresh := by
    dsimp only at hfr
    rw [hfr, idsOf_cooldownPass]
  have hB : now - p.lastSeen > TRACKING_TIMEOUT →
      p.id ∉ idsOf (processFrame sq st dets fh now).1.people := by
    intro h3 hc
    unfold processFrame at hc
    dsimp only at hc
    rcases List.mem_map.1 hc with ⟨pf, hpf, hpfe⟩
    have hpf' : pf ∈ (associate sq (fh * CROSSING_LINE_POSITION) now
        (cooldownPass (cleanupTrackedPeople now st.people)) st.nextId dets).people :=
      List.mem_of_mem_filter hpf
    have : pf.id ∈ idsOf (cleanupTrackedPeople now st.people) ++ fresh := by
      rw [← hfr']
      exact mem_idsOf _ _ hpf'
    rcases List.mem_append.1 this with h | h
    · exact hA h3 (hpfe ▸ h)
    · have := hfb pf.id h
      dsimp only at this
      rw [hpfe] at this
      exact absurd (hwf.1 p hp) (not_lt.2 this)
  refine ⟨?_, ?_, fun h3 => ⟨hA h3, hB h3⟩, rfl⟩
  · constructor
    · intro hin
      have h3 : ¬ now - p.lastSeen > TRACKING_TIMEOUT := by
        intro h3
        exact hB h3 hin
      refine ⟨h3, ?_⟩
      have hmem1 : p ∈ cleanupTrackedPeople now st.people :=
        List.mem_filter.2 ⟨hp, by rw [decide_eq_true_eq]; exact h3⟩
      have hmem1' : cooldownStep p ∈ cooldownPass (cleanupTrackedPeople now st.people) :=
        List.mem_map_of_mem _ hmem1
      rcases hP6 (cooldownStep p) hmem1' (List.not_mem_nil _) with
        ⟨hmem', hnm⟩ | ⟨p'', hmem'', hid'', hls'', hm''⟩
      · right
        unfold processFrame at hin
        dsimp only at hin
        rcases List.mem_map.1 hin with ⟨pf, hpf, hpfe⟩
        have hpf' := List.mem_of_mem_filter hpf
        have hpe : pf = cooldownStep p := by
          apply nodup_ids_inj _ hwfa.2 pf hpf' (cooldownStep p) hmem'
          rw [hpfe, cooldownStep_id]
        have hpred := (List.mem_filter.1 hpf).2
        rw [decide_eq_true_eq] at hpred
        rcases hpred with hmm | h05
        · rw [hpe, cooldownStep_id] at hmm
          rw [cooldownStep_id] at hnm
          exact absurd hmm hnm
        · rw [hpe, cooldownStep_lastSeen] at h05
          exact h05
      · left
        rw [← cooldownStep_id p, ← hid'']
        exact hm''
    · intro ⟨h3, hdisj⟩
      have hmem1 : p ∈ cleanupTrackedPeople now st.people :=
        List.mem_filter.2 ⟨hp, by rw [decide_eq_true_eq]; exact h3⟩
      have hmem1' : cooldownStep p ∈ cooldownPass (cleanupTrackedPeople now st.people) :=
        List.mem_map_of_mem _ hmem1
      unfold processFrame
      dsimp only
      rcases hP6 (cooldownStep p) hmem1' (List.not_mem_nil _) with
        ⟨hmem', hnm⟩ | ⟨p'', hmem'', hid'', hls'', hm''⟩
      · have h05 : ¬ now - p.lastSeen > 500 := by
          rcases hdisj with hmm | h05
          · rw [← cooldownStep_id p] at hmm
            exact absurd hmm hnm
          · exact h05
        have : cooldownStep p ∈ (associate sq (fh * CROSSING_LINE_POSITION) now
            (cooldownPass (cleanupTrackedPeople now st.people)) st.nextId dets).people.filter
            (fun q => q.id ∈ (associate sq (fh * CROSSING_LINE_POSITION) now
              (cooldownPass (cleanupTrackedPeople now st.people)) st.nextId dets).matched ∨
              ¬ now - q.lastSeen > 500) := by
          refine List.mem_filter.2 ⟨hmem', ?_⟩
          rw [decide_eq_true_eq]
          right
          rw [cooldownStep_lastSeen]
          exact h05
        have := mem_idsOf _ _ this
        rw [cooldownStep_id] at this
        exact this
      · have : p'' ∈ (associate sq (fh * CROSSING_LINE_POSITION) now
            (cooldownPass (cleanupTrackedPeople now st.people)) st.nextId dets).people.filter
            (fun q => q.id ∈ (associate sq (fh * CROSSING_LINE_POSITION) now
              (cooldownPass (cleanupTrackedPeople now st.people)) st.nextId dets).matched ∨
              ¬ now - q.lastSeen > 500) := by
          refine List.mem_filter.2 ⟨hmem'', ?_⟩
          rw [decide_eq_true_eq]
          exact Or.inl hm''
        have := mem_idsOf _ _ this
        rw [hid'', cooldownStep_id] at this
        exact this
  · intro hcr h05 hnm
    have h3 : ¬ now - p.lastSeen > TRACKING_TIMEOUT := by
      unfold TRACKING_TIMEOUT
      intro hgt
      apply h05
      linarith
    have hmem1 : p ∈ cleanupTrackedPeople now st.people :=
      List.mem_filter.2 ⟨hp, by rw [decide_eq_true_eq]; exact h3⟩
    have hpe : cooldownStep p = p := cooldownStep_of_not_crossed p hcr
    have hmem1' : p ∈ cooldownPass (cleanupTrackedPeople now st.people) := by
      rw [← hpe]
      exact List.mem_map_of_mem _ hmem1
    unfold processFrame
    dsimp only
    rcases hP6 p hmem1' (List.not_mem_nil _) with
      ⟨hmem', hnm'⟩ | ⟨p'', hmem'', hid'', hls'', hm''⟩
    · refine List.mem_filter.2 ⟨hmem', ?_⟩
      rw [decide_eq_true_eq]
      exact Or.inr h05
    · exact absurd (hid'' ▸ hm'') hnm

/-- Witness for C5 amended: an unmatched, in-grace, non-cooldown track is
retained unmodified on a frame with no detections. -/
theorem c5_witness : pDown ∈ (processFrame ratSqrt ⟨[pDown], 1⟩ [] 400 1000).1.people := by
  have hwf : WF ⟨[pDown], 1⟩ := by
    constructor
    · intro p hp
      rcases List.mem_singleton.1 hp with rfl
      norm_num [pDown]
    · simp [idsOf]
  refine (c5_amended ratSqrt ⟨[pDown], 1⟩ [] 400 1000 hwf pDown
    (List.mem_singleton_self _)).2.1 rfl (by norm_num [pDown]) ?_
  intro hc
  simp [associate, sortDetections] at hc
